import Mathlib

/-!
Verification of the `gdax_websocket` telegraf input plugin.

This file gives a shallow embedding, in Lean 4, of the plugin's pure core:
configuration validation (`validateConfig`), subscription planning
(`generateSubscribeRequests`), handshake validation
(`validateSubscribeResponse` / `validateChannelPairs`), the request signer
(`getSignature`, whose HMAC-SHA256 body lives in the external go-gdax
library and is modelled from the spec), and the `Start`/`Stop` connection
supervision loop (modelled as a state-passing loop over per-bundle transport
outcomes).

Go maps used only for membership tests are embedded as lists with
first-seen-order appends, which is exactly the information the source keeps
(a map for membership plus a separate slice for order).  Machine integers
only occur in the signer, where 32-bit words are `Nat` reduced `% 2^32`.
-/

namespace Gdax

/-! ## Data model (from `gdax_websocket.go` / the revised source file) -/

/-- Embeds Go struct `channelConfig`: a channel name, its specific pairs and
the optional user identity fields.  Go zero values are the defaults. -/
structure channelConfig where
  Channel : String := ""
  Pairs : List String := []
  UserName : String := ""
  Key : String := ""
  Secret : String := ""
  Passphrase : String := ""
deriving Repr, DecidableEq

/-- Embeds Go struct `subscribeRequest`. -/
structure subscribeRequest where
  Type' : String := ""
  Pairs : List String := []
  Channels : List channelConfig := []
  Key : String := ""
  Signature : String := ""
  Passphrase : String := ""
  Timestamp : String := ""
deriving Repr, DecidableEq

/-- Embeds Go struct `subscribeResponse`, which just embeds
`subscribeRequest` (the acknowledgement has the same wire shape). -/
abbrev subscribeResponse := subscribeRequest

/-- Embeds the configuration-carrying part of Go struct `GdaxWebsocket`.
`userNamesByKey` is a Go `map[string]string` built by insertion without
overwrites; it is embedded as an association list in insertion order. -/
structure GdaxWebsocket where
  FeedURL : String := ""
  Pairs : List String := []
  Channels : List channelConfig := []
  userNamesByKey : List (String × String) := []
deriving Repr, DecidableEq

/-! ## Base64 (Go `encoding/base64` StdEncoding)

`validateConfig` calls `base64.StdEncoding.DecodeString` on key and secret
and only looks at the error; the signer decodes the secret for real.  Go's
standard decoder ignores carriage returns and newlines, requires the
remaining length to be a multiple of four, and accepts `=` padding only as
the last one or two characters of the final quantum. -/

/-- Value of one base64 alphabet character (Go `encoding/base64` standard
alphabet), `none` for anything else (including `=`). -/
def b64Val (c : Char) : Option Nat :=
  if 'A' ≤ c ∧ c ≤ 'Z' then some (c.toNat - 65)
  else if 'a' ≤ c ∧ c ≤ 'z' then some (c.toNat - 97 + 26)
  else if '0' ≤ c ∧ c ≤ '9' then some (c.toNat - 48 + 52)
  else if c = '+' then some 62
  else if c = '/' then some 63
  else none

/-- Decode base64 four characters at a time, as Go's standard padded
decoder does: every quantum is four characters; `=` may appear only as the
final one or two characters of the whole input. -/
def b64DecodeQuanta : List Char → Option (List Nat)
  | [] => some []
  | c1 :: c2 :: c3 :: c4 :: rest =>
    match b64Val c1, b64Val c2, b64Val c3, b64Val c4 with
    | some v1, some v2, some v3, some v4 =>
      match b64DecodeQuanta rest with
      | some bs =>
        some (((v1 * 4 + v2 / 16) :: (v2 % 16 * 16 + v3 / 4) ::
          (v3 % 4 * 64 + v4) :: []) ++ bs)
      | none => none
    | some v1, some v2, some v3, none =>
      if c4 = '=' ∧ rest = [] then
        some ((v1 * 4 + v2 / 16) :: (v2 % 16 * 16 + v3 / 4) :: [])
      else none
    | some v1, some v2, none, none =>
      if c3 = '=' ∧ c4 = '=' ∧ rest = [] then
        some ((v1 * 4 + v2 / 16) :: [])
      else none
    | _, _, _, _ => none
  | _ => none

/-- Embeds Go `base64.StdEncoding.DecodeString`: strip `\r`/`\n`, then
decode in quantums of four. -/
def base64Decode (s : String) : Option (List Nat) :=
  b64DecodeQuanta (s.data.filter (fun c => ¬(c = '\n' ∨ c = '\r')))

/-- A string the Go standard base64 decoder accepts. -/
def base64Valid (s : String) : Bool :=
  (base64Decode s).isSome

/-- Character of a 6-bit value in the standard base64 alphabet. -/
def b64Char (n : Nat) : Char :=
  if n < 26 then Char.ofNat (65 + n)
  else if n < 52 then Char.ofNat (97 + n - 26)
  else if n < 62 then Char.ofNat (48 + n - 52)
  else if n = 62 then '+'
  else '/'

/-- Standard padded base64 encoding of a byte list, three bytes at a time. -/
def b64EncodeList : List Nat → List Char
  | [] => []
  | b1 :: [] => b64Char (b1 / 4) :: b64Char (b1 % 4 * 16) :: '=' :: '=' :: []
  | b1 :: b2 :: [] =>
    b64Char (b1 / 4) :: b64Char (b1 % 4 * 16 + b2 / 16) ::
      b64Char (b2 % 16 * 4) :: '=' :: []
  | b1 :: b2 :: b3 :: rest =>
    b64Char (b1 / 4) :: b64Char (b1 % 4 * 16 + b2 / 16) ::
      b64Char (b2 % 16 * 4 + b3 / 64) :: b64Char (b3 % 64) :: b64EncodeList rest

/-- Embeds Go `base64.StdEncoding.EncodeToString`. -/
def base64Encode (l : List Nat) : String :=
  ⟨b64EncodeList l⟩

/-! ## SHA-256 and HMAC

Modelled from the spec: the signer's "HMAC (using a standard cryptographic
hash)" is HMAC-SHA256 as implemented by the external go-gdax client library
(not part of this repository).  Words are 32-bit, embedded as `Nat` with
explicit reduction `% 2^32`. -/

/-- Reduce to a 32-bit word. -/
def w32 (n : Nat) : Nat := n % 4294967296

/-- Right rotation of a 32-bit word. -/
def rotr (x n : Nat) : Nat := w32 ((x >>> n) + (x <<< (32 - n)))

/-- SHA-256 compression state: eight 32-bit words. -/
structure H8 where
  a : Nat
  b : Nat
  c : Nat
  d : Nat
  e : Nat
  f : Nat
  g : Nat
  h : Nat
deriving Repr, DecidableEq

/-- SHA-256 initial hash value. -/
def shaIV : H8 :=
  ⟨1779033703, 3144134277, 1013904242, 2773480762,
   1359893119, 2600822924, 528734635, 1541459225⟩

/-- SHA-256 round constants. -/
def shaK : List Nat :=
  [1116352408,
   1899447441, 3049323471, 3921009573, 961987163,
   1508970993, 2453635748, 2870763221, 3624381080,
   310598401, 607225278, 1426881987, 1925078388,
   2162078206, 2614888103, 3248222580, 3835390401,
   4022224774, 264347078, 604807628, 770255983,
   1249150122, 1555081692, 1996064986, 2554220882,
   2821834349, 2952996808, 3210313671, 3336571891,
   3584528711, 113926993, 338241895, 666307205,
   773529912, 1294757372, 1396182291, 1695183700,
   1986661051, 2177026350, 2456956037, 2730485921,
   2820302411, 3259730800, 3345764771, 3516065817,
   3600352804, 4094571909, 275423344, 430227734,
   506948616, 659060556, 883997877, 958139571,
   1322822218, 1537002063, 1747873779, 1955562222,
   2024104815, 2227730452, 2361852424, 2428436474,
   2756734187, 3204031479, 3329325298]

/-- Extend a 16-word message block to the 64-word schedule (with fuel for
the 48 extension steps). -/
def extendSchedule : Nat → List Nat → List Nat
  | 0, ws => ws
  | n + 1, ws =>
    let t := ws.length
    let w15 := ws.getD (t - 15) 0
    let w2 := ws.getD (t - 2) 0
    let w7 := ws.getD (t - 7) 0
    let w16 := ws.getD (t - 16) 0
    let s0 := (rotr w15 7) ^^^ (rotr w15 18) ^^^ (w15 >>> 3)
    let s1 := (rotr w2 17) ^^^ (rotr w2 19) ^^^ (w2 >>> 10)
    extendSchedule n (ws ++ [w32 (w16 + s0 + w7 + s1)])

/-- One SHA-256 round. -/
def shaRound (st : H8) (kw : Nat × Nat) : H8 :=
  let s1 := (rotr st.e 6) ^^^ (rotr st.e 11) ^^^ (rotr st.e 25)
  let chv := (st.e &&& st.f) ^^^ ((st.e ^^^ 0xffffffff) &&& st.g)
  let t1 := w32 (st.h + s1 + chv + kw.1 + kw.2)
  let s0 := (rotr st.a 2) ^^^ (rotr st.a 13) ^^^ (rotr st.a 22)
  let maj := (st.a &&& st.b) ^^^ (st.a &&& st.c) ^^^ (st.b &&& st.c)
  let t2 := w32 (s0 + maj)
  ⟨w32 (t1 + t2), st.a, st.b, st.c, w32 (st.d + t1), st.e, st.f, st.g⟩

/-- Compress one 16-word block into the running state. -/
def compressBlock (st : H8) (block : List Nat) : H8 :=
  let ws := extendSchedule 48 block
  let r := (shaK.zip ws).foldl shaRound st
  ⟨w32 (st.a + r.a), w32 (st.b + r.b), w32 (st.c + r.c), w32 (st.d + r.d),
   w32 (st.e + r.e), w32 (st.f + r.f), w32 (st.g + r.g), w32 (st.h + r.h)⟩

/-- Group bytes into big-endian 32-bit words, four bytes at a time. -/
def bytesToWords : List Nat → List Nat
  | b1 :: b2 :: b3 :: b4 :: rest =>
    (b1 * 16777216 + b2 * 65536 + b3 * 256 + b4) :: bytesToWords rest
  | _ => []

/-- Group a word list into 16-word blocks. -/
def wordsToBlocks : List Nat → List (List Nat)
  | w1 :: w2 :: w3 :: w4 :: w5 :: w6 :: w7 :: w8 ::
      w9 :: w10 :: w11 :: w12 :: w13 :: w14 :: w15 :: w16 :: rest =>
    [w1, w2, w3, w4, w5, w6, w7, w8,
     w9, w10, w11, w12, w13, w14, w15, w16] :: wordsToBlocks rest
  | _ => []

/-- SHA-256 padding: `0x80`, zeros to 56 mod 64, then the bit length as
eight big-endian bytes. -/
def shaPad (msg : List Nat) : List Nat :=
  let len := msg.length
  let zeros := (119 - len % 64) % 64
  let bits := len * 8
  msg ++ [128] ++ List.replicate zeros 0 ++
    [bits >>> 56 % 256, bits >>> 48 % 256, bits >>> 40 % 256,
     bits >>> 32 % 256, bits >>> 24 % 256, bits >>> 16 % 256,
     bits >>> 8 % 256, bits % 256]

/-- Serialize the final state as 32 big-endian bytes. -/
def h8ToBytes (st : H8) : List Nat :=
  [st.a >>> 24 % 256, st.a >>> 16 % 256, st.a >>> 8 % 256, st.a % 256,
   st.b >>> 24 % 256, st.b >>> 16 % 256, st.b >>> 8 % 256, st.b % 256,
   st.c >>> 24 % 256, st.c >>> 16 % 256, st.c >>> 8 % 256, st.c % 256,
   st.d >>> 24 % 256, st.d >>> 16 % 256, st.d >>> 8 % 256, st.d % 256,
   st.e >>> 24 % 256, st.e >>> 16 % 256, st.e >>> 8 % 256, st.e % 256,
   st.f >>> 24 % 256, st.f >>> 16 % 256, st.f >>> 8 % 256, st.f % 256,
   st.g >>> 24 % 256, st.g >>> 16 % 256, st.g >>> 8 % 256, st.g % 256,
   st.h >>> 24 % 256, st.h >>> 16 % 256, st.h >>> 8 % 256, st.h % 256]

/-- SHA-256 of a byte list. -/
def sha256 (msg : List Nat) : List Nat :=
  h8ToBytes ((wordsToBlocks (bytesToWords (shaPad msg))).foldl compressBlock shaIV)

/-- HMAC-SHA256 with 64-byte block size. -/
def hmacSha256 (key msg : List Nat) : List Nat :=
  let k0 := if key.length > 64 then sha256 key else key
  let k := k0 ++ List.replicate (64 - k0.length) 0
  let ipad := k.map (fun b => b ^^^ 54)
  let opad := k.map (fun b => b ^^^ 92)
  sha256 (opad ++ sha256 (ipad ++ msg))

/-! ## The signer (`getSignature`) -/

/-- Decimal digits of a positive number, most significant first, with fuel
(`fuel > log10 n` suffices; callers pass `n + 1`). -/
def decimalDigitsAux : Nat → Nat → List Char
  | 0, _ => []
  | fuel + 1, n =>
    if n = 0 then []
    else decimalDigitsAux fuel (n / 10) ++ [Char.ofNat (48 + n % 10)]

/-- Base-10 string of a natural number, as Go `strconv.FormatInt(·, 10)`
renders the (non-negative) Unix time. -/
def decimalRepr (n : Nat) : String :=
  if n = 0 then "0" else ⟨decimalDigitsAux (n + 1) n⟩

/-- Bytes of an ASCII string (the signer's inputs are ASCII). -/
def strBytes (s : String) : List Nat :=
  s.data.map Char.toNat

/-- Modelled from the spec: the go-gdax `Headers("GET", "/users/self/verify",
timestamp, "")` signature, which this repository's `getSignature` reads out
of the returned header map, is the base64 encoding of an HMAC-SHA256 over
`timestamp ‖ method ‖ path ‖ body` keyed by the base64-decoded secret; the
library ignores its own error, so a non-decodable secret yields an empty
signature. -/
def gdaxSign (secret timestamp : String) : String :=
  match base64Decode secret with
  | none => ""
  | some key =>
    base64Encode (hmacSha256 key (strBytes (timestamp ++ "GET" ++ "/users/self/verify" ++ "")))

/-- Embeds `getSignature`: the timestamp is the current Unix time (passed
here as the explicit clock value `now`) in decimal, and the signature is
the library HMAC described above. -/
def getSignature (now : Nat) (secret _key _passphrase : String) : String × String :=
  let timestamp := decimalRepr now
  (timestamp, gdaxSign secret timestamp)

/-! ## Config validation (`validateConfig`) -/

/-- The distinct `validateConfig` failure modes, one per `fmt.Errorf` site. -/
inductive ConfigErr where
  | noFeedURL
  | noChannels
  | noChannel
  | noPairs (channel : String)
  | tickerTwice
  | level2Twice
  | userNameForChannel (channel : String)
  | credsForChannel (channel : String)
  | noUserName
  | noKey (user : String)
  | nonBase64Key
  | noSecret (user : String)
  | nonBase64Secret
  | noPassphrase (user : String)
  | dupUserName
  | dupKey
  | invalidChannel (channel : String)
deriving Repr, DecidableEq

/-- Upper-case an ASCII letter (Go's `strings.ToUpper` restricted to the
ASCII instrument symbols this plugin handles). -/
def charUpper (c : Char) : Char :=
  if 97 ≤ c.toNat ∧ c.toNat ≤ 122 then Char.ofNat (c.toNat - 32) else c

/-- Embeds `strings.ToUpper` on the plugin's ASCII pair symbols. -/
def strUpper (s : String) : String :=
  ⟨s.data.map charUpper⟩

/-- The global-pair normalization loop: upper-case, drop duplicates, keep
first-seen order (the Go loop threads a membership map next to the output
slice; the output list carries the same information). -/
def dedupUpper (input : List String) : List String :=
  input.foldl
    (fun acc pair =>
      if acc.contains (strUpper pair) then acc else acc ++ [strUpper pair])
    []

/-- The per-channel pair normalization loop: upper-case, skip pairs already
in the (normalized) global list, drop duplicates, keep first-seen order. -/
def dedupUpperExcluding (globalPairs : List String) (input : List String) : List String :=
  input.foldl
    (fun acc pair =>
      if globalPairs.contains (strUpper pair) then acc
      else if acc.contains (strUpper pair) then acc
      else acc ++ [strUpper pair])
    []

/-- The identity-field checks shared by the `ticker` and `level2` cases
(the `ticker` case falls through to them). -/
def checkTickerLevel2 (c : channelConfig) : Option ConfigErr :=
  if c.UserName.length > 0 then some (.userNameForChannel c.Channel)
  else if c.Key.length > 0 ∨ c.Secret.length > 0 ∨ c.Passphrase.length > 0 then
    some (.credsForChannel c.Channel)
  else none

/-- The `user` case checks, in source order: required fields, base64
decodability of key and secret, uniqueness of user name and key. -/
def checkUser (c : channelConfig) (users : List String)
    (userNamesByKey : List (String × String)) : Option ConfigErr :=
  if c.UserName.length = 0 then some .noUserName
  else if c.Key.length = 0 then some (.noKey c.UserName)
  else if ¬ base64Valid c.Key then some .nonBase64Key
  else if c.Secret.length = 0 then some (.noSecret c.UserName)
  else if ¬ base64Valid c.Secret then some .nonBase64Secret
  else if c.Passphrase.length = 0 then some (.noPassphrase c.UserName)
  else if users.contains c.UserName then some .dupUserName
  else if (userNamesByKey.map Prod.fst).contains c.Key then some .dupKey
  else none

/-- One iteration of the `validateConfig` channel loop, in source order:
the channel-name and pairs-available checks, the in-place rewrite of the
channel's pairs, then the `switch` on the channel name.  Returns the
channel as the loop leaves it (pairs rewritten exactly when the first two
checks passed) and either the accumulator state for the next iteration or
the error the method returns. -/
def channelStep (gPairs : List String) (c : channelConfig) (users : List String)
    (userNamesByKey : List (String × String)) (ticker level2 : Bool) :
    channelConfig ×
      Except ConfigErr (List String × List (String × String) × Bool × Bool) :=
  if c.Channel.length = 0 then (c, .error .noChannel)
  else if gPairs.length + c.Pairs.length = 0 then (c, .error (.noPairs c.Channel))
  else
    let c' := { c with Pairs := dedupUpperExcluding gPairs c.Pairs }
    if c.Channel = "ticker" then
      if ticker then (c', .error .tickerTwice)
      else
        match checkTickerLevel2 c with
        | some e => (c', .error e)
        | none => (c', .ok (users, userNamesByKey, true, level2))
    else if c.Channel = "level2" then
      if level2 then (c', .error .level2Twice)
      else
        match checkTickerLevel2 c with
        | some e => (c', .error e)
        | none => (c', .ok (users, userNamesByKey, ticker, true))
    else if c.Channel = "user" then
      match checkUser c users userNamesByKey with
      | some e => (c', .error e)
      | none =>
        (c', .ok (users ++ [c.UserName], userNamesByKey ++ [(c.Key, c.UserName)],
          ticker, level2))
    else (c', .error (.invalidChannel c.Channel))

/-- The channel loop of `validateConfig`.  Returns the channel list as left
by the loop (pairs of processed channels rewritten in place, like the Go
`gx.Channels[i].Pairs = pairs` assignment), the `userNamesByKey` map under
construction, and the first error.  `gPairs` is the already-normalized
global pair list. -/
def validateChannelsLoop (gPairs : List String) :
    List channelConfig → List String → List (String × String) → Bool → Bool →
      List channelConfig × List (String × String) × Option ConfigErr
  | [], _, userNamesByKey, _, _ => ([], userNamesByKey, none)
  | c :: rest, users, userNamesByKey, ticker, level2 =>
    match channelStep gPairs c users userNamesByKey ticker level2 with
    | (c', .error e) => (c' :: rest, userNamesByKey, some e)
    | (c', .ok (users', userNamesByKey', ticker', level2')) =>
      let r := validateChannelsLoop gPairs rest users' userNamesByKey' ticker' level2'
      (c' :: r.1, r.2)

/-- Embeds `(*GdaxWebsocket).validateConfig`: returns the struct as the
method leaves it (global pairs normalized once the first two checks pass,
processed channels' pairs rewritten, `userNamesByKey` assigned only on
success) together with the returned error. -/
def validateConfig (gx : GdaxWebsocket) : GdaxWebsocket × Option ConfigErr :=
  if gx.FeedURL.length = 0 then (gx, some .noFeedURL)
  else if gx.Channels.length = 0 then (gx, some .noChannels)
  else
    let gPairs := dedupUpper gx.Pairs
    let r := validateChannelsLoop gPairs gx.Channels [] [] false false
    match r.2.2 with
    | some e => ({ gx with Pairs := gPairs, Channels := r.1 }, some e)
    | none =>
      ({ gx with Pairs := gPairs, Channels := r.1, userNamesByKey := r.2.1 }, none)

/-! ## Subscription planning (`generateSubscribeRequests`) -/

/-- In-place update of one list element, as the Go `subs[subID].… = …`
assignments; out of range leaves the list unchanged (the Go code would
panic there — claim C9 is that validated configurations never reach an
out-of-range index). -/
def listModify : List α → Nat → (α → α) → List α
  | [], _, _ => []
  | x :: rest, 0, f => f x :: rest
  | x :: rest, n + 1, f => x :: listModify rest n f

/-- The planner walk: one step per channel, threading the bundle list, the
current bundle index `subID` and the `hasUser` flag.  A `user` channel
first advances the index if the flag is set (resetting the flag) or sets
the flag, then writes its credentials into the current bundle; every
channel is then appended to the current bundle's channel list. -/
def genLoop (now : Nat) : List channelConfig → List subscribeRequest → Nat → Bool →
    List subscribeRequest
  | [], subs, _, _ => subs
  | channel :: rest, subs, subID, hasUser =>
    if channel.Channel = "user" then
      let subID' := if hasUser then subID + 1 else subID
      let hasUser' := if hasUser then false else true
      let ts := getSignature now channel.Secret channel.Key channel.Passphrase
      let subs' := listModify subs subID' (fun s =>
        { s with Key := channel.Key, Passphrase := channel.Passphrase,
                 Timestamp := ts.1, Signature := ts.2,
                 Channels := s.Channels ++ [channel] })
      genLoop now rest subs' subID' hasUser'
    else
      genLoop now rest
        (listModify subs subID (fun s => { s with Channels := s.Channels ++ [channel] }))
        subID hasUser

/-- Embeds `(*GdaxWebsocket).generateSubscribeRequests` (with the clock
passed explicitly): allocate `max(1, numUsers)` empty bundles, run the
walk, then set `Type = "subscribe"` and the global pairs on every bundle. -/
def generateSubscribeRequests (now : Nat) (gx : GdaxWebsocket) : List subscribeRequest :=
  let numUsers := gx.userNamesByKey.length
  let numSubs := if numUsers > 1 then 1 + (numUsers - 1) else 1
  let subs := genLoop now gx.Channels (List.replicate numSubs {}) 0 false
  subs.map (fun s => { s with Type' := "subscribe", Pairs := gx.Pairs })

/-! ## Handshake validation (`validateSubscribeResponse`) -/

/-- The handshake failure modes, one per `fmt.Errorf` site. -/
inductive HsErr where
  | badType
  | channelsLen
  | pairLen
  | pairMismatch
  | channelMismatch
deriving Repr, DecidableEq

/-- The inner loop of `validateChannelPairs`: each acknowledged pair must
occur among the sent channel's pairs or the sent global pairs. -/
def checkResPairs (reqChannelPairs reqGlobalPairs : List String) :
    List String → Option HsErr
  | [] => none
  | p :: rest =>
    if reqChannelPairs.contains p then checkResPairs reqChannelPairs reqGlobalPairs rest
    else if reqGlobalPairs.contains p then checkResPairs reqChannelPairs reqGlobalPairs rest
    else some .pairMismatch

/-- Embeds `validateChannelPairs`. -/
def validateChannelPairs (reqChannelPairs reqGlobalPairs resChannelPairs : List String) :
    Option HsErr :=
  if reqChannelPairs.length + reqGlobalPairs.length ≠ resChannelPairs.length then
    some .pairLen
  else checkResPairs reqChannelPairs reqGlobalPairs resChannelPairs

/-- The inner loop of `validateSubscribeResponse` over the sent channels
for one acknowledged channel: any name match triggers a pair check (a
failure returns at once) and sets the `match` flag. -/
def resChannelLoop (gPairs : List String) (resChannel : channelConfig) :
    List channelConfig → Bool → Option HsErr
  | [], matched => if matched then none else some .channelMismatch
  | reqChannel :: rest, matched =>
    if resChannel.Channel = reqChannel.Channel then
      match validateChannelPairs reqChannel.Pairs gPairs resChannel.Pairs with
      | some e => some e
      | none => resChannelLoop gPairs resChannel rest true
    else resChannelLoop gPairs resChannel rest matched

/-- The outer loop of `validateSubscribeResponse` over acknowledged
channels. -/
def resChannelsLoop (reqChannels : List channelConfig) (gPairs : List String) :
    List channelConfig → Option HsErr
  | [] => none
  | resChannel :: rest =>
    match resChannelLoop gPairs resChannel reqChannels false with
    | some e => some e
    | none => resChannelsLoop reqChannels gPairs rest

/-- Embeds `validateSubscribeResponse`. -/
def validateSubscribeResponse (req : subscribeRequest) (res : subscribeResponse) :
    Option HsErr :=
  if res.Type' ≠ "subscriptions" then some .badType
  else if res.Channels.length ≠ req.Channels.length then some .channelsLen
  else resChannelsLoop req.Channels req.Pairs res.Channels

/-! ## Connection supervision (`Start` / `Stop`)

`Start` is modelled as a state-passing loop over the planned bundles; the
transport is an explicit per-bundle outcome (dial failure, send failure,
receive failure, or a received acknowledgement).  A connection handle is a
`Nat`; the model records the handles held in `gx.conns` and, separately,
the set of handles whose `Close` has been called. -/

/-- Transport outcome of one bundle's dial/send/receive sequence. -/
inductive StepOutcome where
  | dialFail
  | dialOk (writeFails : Bool) (readResult : Option subscribeResponse)
deriving Repr

/-- Errors `Start` can return. -/
inductive StartErr where
  | config (e : ConfigErr)
  | dialErr
  | writeErr
  | readErr
  | handshake (e : HsErr)
deriving Repr, DecidableEq

/-- Supervisor state: `conns` is the Go `gx.conns` slice (handles of
successfully dialed connections), `closedIds` the handles closed so far,
`nextId` the next fresh handle. -/
structure StartSt where
  conns : List Nat := []
  closedIds : List Nat := []
  nextId : Nat := 0
deriving Repr, DecidableEq

/-- Embeds `(*GdaxWebsocket).Stop`: close every recorded connection, then
clear the slice (`gx.conns = nil`). -/
def stopModel (st : StartSt) : StartSt :=
  { st with closedIds := st.closedIds ++ st.conns, conns := [] }

/-- The bundle loop of `Start`: dial (a failure returns at once, without
`Stop`), record the connection, send, receive and validate (each failure
calls `Stop` and returns). -/
def startLoop : List (subscribeRequest × StepOutcome) → StartSt →
    StartSt × Option StartErr
  | [], st => (st, none)
  | (req, out) :: rest, st =>
    match out with
    | .dialFail => (st, some .dialErr)
    | .dialOk writeFails readResult =>
      let st := { st with conns := st.conns ++ [st.nextId], nextId := st.nextId + 1 }
      if writeFails then (stopModel st, some .writeErr)
      else
        match readResult with
        | none => (stopModel st, some .readErr)
        | some res =>
          match validateSubscribeResponse req res with
          | some e => (stopModel st, some (.handshake e))
          | none => startLoop rest st

/-- Embeds `(*GdaxWebsocket).Start` over a given clock and per-bundle
transport outcomes: validate the config, plan the bundles, then run the
bundle loop from a fresh state. -/
def startModel (now : Nat) (outs : List StepOutcome) (gx : GdaxWebsocket) :
    GdaxWebsocket × StartSt × Option StartErr :=
  match validateConfig gx with
  | (gx', some e) => (gx', {}, some (.config e))
  | (gx', none) =>
    let subs := generateSubscribeRequests now gx'
    let r := startLoop (subs.zip outs) {}
    (gx', r.1, r.2)

/-! ## Spec-side formulations

The spec describes pair normalization declaratively; these definitions
follow the spec's words and are compared with the loop embeddings above. -/

/-- Spec formulation of first-seen-order deduplication: keep each element's
first occurrence, drop the later ones. -/
def specFirstSeenDedup (l : List String) : List String :=
  l.foldr (fun x acc => x :: acc.filter (fun q => q != x)) []

/-- Spec formulation of a channel's effective pairs: the channel's pairs
upper-cased, deduplicated in first-seen order, minus the pairs already in
the normalized global list. -/
def specChannelPairs (gPairs : List String) (pairs : List String) : List String :=
  (specFirstSeenDedup (pairs.map strUpper)).filter (fun p => !(gPairs.contains p))

/-- Spec formulation of the per-channel handshake pair condition: the
acknowledged pair list has exactly effective-pairs-plus-global-pairs many
entries and every entry is an effective pair or a global pair. -/
abbrev PairsOk (qc : channelConfig) (gPairs : List String) (rc : channelConfig) : Prop :=
  rc.Pairs.length = qc.Pairs.length + gPairs.length ∧
    ∀ p ∈ rc.Pairs, p ∈ qc.Pairs ∨ p ∈ gPairs

/-- Spec formulation of handshake acceptance: right type, equal channel
counts, every acknowledged channel matches some sent channel by name, and
every name match satisfies the pair condition. -/
abbrev HsSpec (req : subscribeRequest) (res : subscribeResponse) : Prop :=
  res.Type' = "subscriptions" ∧ res.Channels.length = req.Channels.length ∧
    ∀ rc ∈ res.Channels,
      (∃ qc ∈ req.Channels, rc.Channel = qc.Channel) ∧
        ∀ qc ∈ req.Channels, rc.Channel = qc.Channel → PairsOk qc req.Pairs rc

/-- Number of `user` channels in a channel list. -/
def usersCount (channels : List channelConfig) : Nat :=
  (channels.filter (fun c => c.Channel == "user")).length

/-- The planner's bundle index after walking a list of channels, starting
from bundle `0` with a free authenticated slot (the `subID`/`hasUser`
state of `generateSubscribeRequests`). -/
def subIDState (channels : List channelConfig) : Nat × Bool :=
  channels.foldl
    (fun st c =>
      if c.Channel == "user" then
        if st.2 then (st.1 + 1, false) else (st.1, true)
      else st)
    (0, false)

/-- The planner's current bundle index after walking `channels`. -/
def subIDAfter (channels : List channelConfig) : Nat :=
  (subIDState channels).1

/-- The `validateConfig` failure modes raised by the `user` channel checks. -/
def ConfigErr.isUserErr : ConfigErr → Bool
  | .noUserName => true
  | .noKey _ => true
  | .nonBase64Key => true
  | .noSecret _ => true
  | .nonBase64Secret => true
  | .noPassphrase _ => true
  | .dupUserName => true
  | .dupKey => true
  | _ => false

/-- The per-channel conditions claim C8 puts on a `user` channel. -/
abbrev UserChannelOk (c : channelConfig) : Prop :=
  c.UserName ≠ "" ∧ c.Key ≠ "" ∧ base64Valid c.Key ∧ c.Secret ≠ "" ∧
    base64Valid c.Secret ∧ c.Passphrase ≠ ""

/-! ## Concrete fixtures (the repository's own test data) -/

/-- A `ticker` channel, as in the repository's tests. -/
def tickerChannelConfig : channelConfig :=
  { Channel := "ticker", Pairs := ["ETH-USD"] }

/-- A `level2` channel, as in the repository's tests. -/
def level2ChannelConfig : channelConfig :=
  { Channel := "level2", Pairs := ["BTC-USD", "ETH-USD"] }

/-- First `user` channel fixture. -/
def userChannelConfig1 : channelConfig :=
  { Channel := "user", Pairs := ["BTC-USD", "ETH-USD"],
    UserName := "John Smith", Key := "a531631f192bf4778a19fbfbfae237a5",
    Secret := "a4446242132b34778a19fbfbfae237a5", Passphrase := "passphrase" }

/-- Second `user` channel fixture. -/
def userChannelConfig2 : channelConfig :=
  { Channel := "user", Pairs := ["BTC-USD", "ETH-USD"],
    UserName := "Jane Smith", Key := "b323431f192bf4778a19fbfbfbb237b5",
    Secret := "a532631f1923f4778a194bfbfae337a5", Passphrase := "passphrase" }

/-- Third `user` channel fixture (valid, distinct identity). -/
def userChannelConfig3 : channelConfig :=
  { Channel := "user", Pairs := ["BTC-USD"],
    UserName := "Jim Smith", Key := "c323431f192bf4778a19fbfbfbb237b5",
    Secret := "c532631f1923f4778a194bfbfae337a5", Passphrase := "passphrase" }

/-- The repository's valid test configuration: ticker, level2, two users. -/
def validTestGdax : GdaxWebsocket :=
  { FeedURL := "wss://ws-feed.gdax.com",
    Channels := [tickerChannelConfig, level2ChannelConfig,
                 userChannelConfig1, userChannelConfig2] }

/-- The same configuration with both `user` channels first. -/
def usersFirstGdax : GdaxWebsocket :=
  { FeedURL := "wss://ws-feed.gdax.com",
    Channels := [userChannelConfig1, userChannelConfig2,
                 tickerChannelConfig, level2ChannelConfig] }

/-- A valid configuration with three distinct `user` channels. -/
def threeUserGdax : GdaxWebsocket :=
  { FeedURL := "wss://ws-feed.gdax.com",
    Channels := [userChannelConfig1, userChannelConfig2, userChannelConfig3] }

/-- One ticker and one level2, no identity fields, pairs available. -/
def tickerLevel2Gdax : GdaxWebsocket :=
  { FeedURL := "wss://ws-feed.gdax.com",
    Channels := [tickerChannelConfig, level2ChannelConfig] }

/-- Global pairs cover the ticker channel's specific pairs entirely. -/
def subsetPairsGdax : GdaxWebsocket :=
  { FeedURL := "wss://ws-feed.gdax.com", Pairs := ["ETH-USD", "BTC-USD"],
    Channels := [{ Channel := "ticker", Pairs := ["eth-usd", "ETH-USD"] }] }

/-- The spec's global-pair normalization example input. -/
def pairsExampleGdax : GdaxWebsocket :=
  { FeedURL := "wss://ws-feed.gdax.com", Pairs := ["eth-usd", "BTC-ETH", "ETH-USD"],
    Channels := [tickerChannelConfig] }

/-- Configuration planned into two bundles for the `Start` scenario of
claim C1: two `user` channels, one bundle each. -/
def twoUserStartGdax : GdaxWebsocket :=
  { FeedURL := "wss://ws-feed.gdax.com",
    Channels := [userChannelConfig1, userChannelConfig2] }

/-- A correct acknowledgement for the first bundle of `twoUserStartGdax`:
right type, the one sent channel by name, and exactly its pairs. -/
def goodAckUser1 : subscribeResponse :=
  { Type' := "subscriptions",
    Channels := [{ Channel := "user", Pairs := ["BTC-USD", "ETH-USD"] }] }

/-- A configuration declaring the `ticker` channel twice. -/
def twoTickerGdax : GdaxWebsocket :=
  { FeedURL := "wss://ws-feed.gdax.com",
    Channels := [tickerChannelConfig, tickerChannelConfig] }

/-- A configuration declaring the `level2` channel twice. -/
def twoLevel2Gdax : GdaxWebsocket :=
  { FeedURL := "wss://ws-feed.gdax.com",
    Channels := [level2ChannelConfig, level2ChannelConfig] }

/-- A configuration with an empty feed URL (always rejected). -/
def emptyFeedGdax : GdaxWebsocket :=
  { FeedURL := "", Channels := [tickerChannelConfig] }

/-- The repository test's handshake request: one `ticker` channel with an
extra pair, one `level2` channel, one global pair. -/
def handshakeReqExample : subscribeRequest :=
  { Type' := "subscribe", Pairs := ["ETH-USD"],
    Channels := [{ Channel := "ticker", Pairs := ["ETH-BTC"] },
                 { Channel := "level2" }] }

/-- The repository test's matching acknowledgement. -/
def handshakeResExample : subscribeResponse :=
  { Type' := "subscriptions",
    Channels := [{ Channel := "ticker", Pairs := ["ETH-USD", "ETH-BTC"] },
                 { Channel := "level2", Pairs := ["ETH-USD"] }] }

/-! ## Helper lemmas -/

theorem specFirstSeenDedup_cons (x : String) (t : List String) :
    specFirstSeenDedup (x :: t) =
      x :: (specFirstSeenDedup t).filter (fun q => q != x) := rfl

theorem contains_iff_mem (l : List String) (p : String) : l.contains p ↔ p ∈ l :=
  List.elem_iff

theorem contains_eq_decide (l : List String) (p : String) :
    l.contains p = decide (p ∈ l) := by
  apply Bool.eq_iff_iff.mpr
  simp [contains_iff_mem]

theorem dedupUpperExcluding_go (g : List String) (l : List String) (acc : List String) :
    List.foldl (fun acc pair =>
        if g.contains (strUpper pair) then acc
        else if acc.contains (strUpper pair) then acc
        else acc ++ [strUpper pair]) acc l
    = acc ++ (specFirstSeenDedup (l.map strUpper)).filter
        (fun a => !(g.contains a) && !(acc.contains a)) := by
  induction l generalizing acc with
  | nil => simp [specFirstSeenDedup]
  | cons x t ih =>
    simp only [List.foldl_cons, List.map_cons, specFirstSeenDedup_cons, List.filter_cons]
    cases hg : g.contains (strUpper x) with
    | true =>
      simp only [Bool.false_eq_true, Bool.true_eq_false, eq_self_iff_true, if_true, if_false, ite_true, ite_false, Bool.not_true, Bool.not_false, Bool.false_and, Bool.true_and, Bool.and_true]
      rw [ih]
      congr 1
      rw [List.filter_filter]
      apply List.filter_congr
      intro a _
      apply Bool.eq_iff_iff.mpr
      simp only [Bool.and_eq_true, Bool.not_eq_true', bne_iff_ne, ne_eq,
        contains_eq_decide, decide_eq_false_iff_not, decide_eq_true_eq]
      rw [contains_iff_mem] at hg
      constructor
      · rintro ⟨hga, hacca⟩
        refine ⟨⟨hga, hacca⟩, ?_⟩
        intro he; subst he; exact hga hg
      · rintro ⟨⟨hga, hacca⟩, _⟩; exact ⟨hga, hacca⟩
    | false =>
      simp only [Bool.false_eq_true, Bool.true_eq_false, eq_self_iff_true, if_true, if_false, ite_true, ite_false, Bool.not_true, Bool.not_false, Bool.false_and, Bool.true_and, Bool.and_true]
      cases ha : acc.contains (strUpper x) with
      | true =>
        simp only [Bool.false_eq_true, Bool.true_eq_false, eq_self_iff_true, if_true, if_false, ite_true, ite_false, Bool.not_true, Bool.not_false, Bool.false_and, Bool.true_and, Bool.and_true]
        rw [ih]
        congr 1
        rw [List.filter_filter]
        apply List.filter_congr
        intro a _
        apply Bool.eq_iff_iff.mpr
        simp only [Bool.and_eq_true, Bool.not_eq_true', bne_iff_ne, ne_eq,
          contains_eq_decide, decide_eq_false_iff_not, decide_eq_true_eq]
        rw [contains_iff_mem] at ha
        constructor
        · rintro ⟨hga, hacca⟩
          refine ⟨⟨hga, hacca⟩, ?_⟩
          intro he; subst he; exact hacca ha
        · rintro ⟨⟨hga, hacca⟩, _⟩; exact ⟨hga, hacca⟩
      | false =>
        simp only [Bool.false_eq_true, Bool.true_eq_false, eq_self_iff_true, if_true, if_false, ite_true, ite_false, Bool.not_true, Bool.not_false, Bool.false_and, Bool.true_and, Bool.and_true]
        rw [ih]
        simp only [List.append_assoc, List.singleton_append]
        congr 2
        rw [List.filter_filter]
        apply List.filter_congr
        intro a _
        apply Bool.eq_iff_iff.mpr
        simp only [Bool.and_eq_true, Bool.not_eq_true', bne_iff_ne, ne_eq,
          contains_eq_decide, decide_eq_false_iff_not, decide_eq_true_eq,
          List.mem_append, List.mem_singleton]
        constructor
        · rintro ⟨hga, hacca⟩
          constructor
          · exact ⟨hga, fun h => hacca (Or.inl h)⟩
          · intro he; exact hacca (Or.inr he)
        · rintro ⟨⟨hga, hacca⟩, hne⟩
          refine ⟨hga, ?_⟩
          rintro (h | h)
          · exact hacca h
          · exact hne h

theorem dedupUpperExcluding_spec (g l : List String) :
    dedupUpperExcluding g l = specChannelPairs g l := by
  unfold dedupUpperExcluding specChannelPairs
  rw [dedupUpperExcluding_go]
  simp only [List.nil_append]
  apply List.filter_congr
  intro a _
  simp [List.contains]

theorem dedupUpper_eq_excluding_nil (l : List String) :
    dedupUpper l = dedupUpperExcluding [] l := rfl

theorem dedupUpper_spec (l : List String) :
    dedupUpper l = specFirstSeenDedup (l.map strUpper) := by
  rw [dedupUpper_eq_excluding_nil, dedupUpperExcluding_spec]
  unfold specChannelPairs
  simp [List.contains]


theorem strLength_eq_zero {s : String} : s.length = 0 ↔ s = "" := by
  constructor
  · intro h
    cases s with
    | mk data =>
      cases data with
      | nil => rfl
      | cons c cs => simp [String.length] at h
  · intro h; subst h; rfl

theorem checkTickerLevel2_none_inv {c : channelConfig}
    (h : checkTickerLevel2 c = none) :
    c.UserName = "" ∧ c.Key = "" ∧ c.Secret = "" ∧ c.Passphrase = "" := by
  unfold checkTickerLevel2 at h
  split_ifs at h with h1 h2
  push_neg at h1 h2
  obtain ⟨k1, k2, k3⟩ := h2
  exact ⟨strLength_eq_zero.mp (Nat.le_zero.mp h1),
    strLength_eq_zero.mp (Nat.le_zero.mp k1),
    strLength_eq_zero.mp (Nat.le_zero.mp k2),
    strLength_eq_zero.mp (Nat.le_zero.mp k3)⟩

theorem checkUser_none_inv {c : channelConfig} {users : List String}
    {unbk : List (String × String)} (h : checkUser c users unbk = none) :
    UserChannelOk c ∧ c.UserName ∉ users ∧ c.Key ∉ unbk.map Prod.fst := by
  unfold checkUser at h
  split_ifs at h with h1 h2 h3 h4 h5 h6 h7 h8
  refine ⟨⟨?_, ?_, h3, ?_, h5, ?_⟩, ?_, ?_⟩
  · intro he; exact h1 (by rw [he]; rfl)
  · intro he; exact h2 (by rw [he]; rfl)
  · intro he; exact h4 (by rw [he]; rfl)
  · intro he; exact h6 (by rw [he]; rfl)
  · intro hm; exact h7 ((contains_iff_mem _ _).mpr hm)
  · intro hm; exact h8 ((contains_iff_mem _ _).mpr hm)

theorem checkUser_none_of_ok {c : channelConfig} {users : List String}
    {unbk : List (String × String)} (hok : UserChannelOk c)
    (hu : c.UserName ∉ users) (hk : c.Key ∉ unbk.map Prod.fst) :
    checkUser c users unbk = none := by
  obtain ⟨h1, h2, h3, h4, h5, h6⟩ := hok
  unfold checkUser
  split_ifs with g1 g2 g3 g4 g5 g6
  · exact absurd (strLength_eq_zero.mp g1) h1
  · exact absurd (strLength_eq_zero.mp g2) h2
  · exact absurd (strLength_eq_zero.mp g3) h4
  · exact absurd (strLength_eq_zero.mp g4) h6
  · exact absurd ((contains_iff_mem _ _).mp g5) hu
  · exact absurd ((contains_iff_mem _ _).mp g6) hk
  · rfl


theorem channelStep_ok_inv {g : List String} {c : channelConfig} {users : List String}
    {unbk : List (String × String)} {ticker level2 : Bool} {c' : channelConfig}
    {st' : List String × List (String × String) × Bool × Bool}
    (h : channelStep g c users unbk ticker level2 = (c', .ok st')) :
    c' = { c with Pairs := dedupUpperExcluding g c.Pairs } ∧
    g.length + c.Pairs.length ≠ 0 ∧
    ((c.Channel = "ticker" ∧ ticker = false ∧ checkTickerLevel2 c = none ∧
        st' = (users, unbk, true, level2)) ∨
     (c.Channel = "level2" ∧ level2 = false ∧ checkTickerLevel2 c = none ∧
        st' = (users, unbk, ticker, true)) ∨
     (c.Channel = "user" ∧ checkUser c users unbk = none ∧
        st' = (users ++ [c.UserName], unbk ++ [(c.Key, c.UserName)], ticker, level2))) := by
  unfold channelStep at h
  simp only [] at h
  split_ifs at h with h1 h2 h3 h4 h5 h6 h7
  · simp at h
  · simp at h
  · simp at h
  · split at h
    · simp at h
    · rename_i heq
      simp only [Prod.mk.injEq, Except.ok.injEq] at h
      exact ⟨h.1.symm, h2, Or.inl ⟨h3, Bool.not_eq_true _ ▸ h4, heq, h.2.symm⟩⟩
  · simp at h
  · split at h
    · simp at h
    · rename_i heq
      simp only [Prod.mk.injEq, Except.ok.injEq] at h
      exact ⟨h.1.symm, h2, Or.inr (Or.inl ⟨h5, Bool.not_eq_true _ ▸ h6, heq, h.2.symm⟩)⟩
  · split at h
    · simp at h
    · rename_i heq
      simp only [Prod.mk.injEq, Except.ok.injEq] at h
      exact ⟨h.1.symm, h2, Or.inr (Or.inr ⟨h7, heq, h.2.symm⟩)⟩
  · simp at h


theorem channelStep_error_userErr {g : List String} {c : channelConfig}
    {users : List String} {unbk : List (String × String)} {ticker level2 : Bool}
    {c' : channelConfig} {e : ConfigErr}
    (h : channelStep g c users unbk ticker level2 = (c', .error e))
    (he : e.isUserErr = true) :
    c.Channel = "user" ∧ checkUser c users unbk = some e := by
  unfold channelStep at h
  simp only [] at h
  split_ifs at h with h1 h2 h3 h4 h5 h6 h7
  · simp only [Prod.mk.injEq, Except.error.injEq] at h
    rw [← h.2] at he; simp [ConfigErr.isUserErr] at he
  · simp only [Prod.mk.injEq, Except.error.injEq] at h
    rw [← h.2] at he; simp [ConfigErr.isUserErr] at he
  · simp only [Prod.mk.injEq, Except.error.injEq] at h
    rw [← h.2] at he; simp [ConfigErr.isUserErr] at he
  · split at h
    · rename_i e' heq
      simp only [Prod.mk.injEq, Except.error.injEq] at h
      unfold checkTickerLevel2 at heq
      split_ifs at heq <;>
        (rw [← h.2, ← Option.some.inj heq] at he; simp [ConfigErr.isUserErr] at he)
    · simp at h
  · simp only [Prod.mk.injEq, Except.error.injEq] at h
    rw [← h.2] at he; simp [ConfigErr.isUserErr] at he
  · split at h
    · rename_i e' heq
      simp only [Prod.mk.injEq, Except.error.injEq] at h
      unfold checkTickerLevel2 at heq
      split_ifs at heq <;>
        (rw [← h.2, ← Option.some.inj heq] at he; simp [ConfigErr.isUserErr] at he)
    · simp at h
  · split at h
    · rename_i e' heq
      simp only [Prod.mk.injEq, Except.error.injEq] at h
      exact ⟨h7, h.2 ▸ heq⟩
    · simp at h
  · simp only [Prod.mk.injEq, Except.error.injEq] at h
    rw [← h.2] at he; simp [ConfigErr.isUserErr] at he


theorem loop_ok_channels {g : List String} {l : List channelConfig} :
    ∀ {users : List String} {unbk : List (String × String)} {t l2 : Bool},
      (validateChannelsLoop g l users unbk t l2).2.2 = none →
      (validateChannelsLoop g l users unbk t l2).1
        = l.map (fun c => { c with Pairs := dedupUpperExcluding g c.Pairs }) := by
  induction l with
  | nil => intro users unbk t l2 _; rfl
  | cons c rest ih =>
    intro users unbk t l2 h
    unfold validateChannelsLoop at h ⊢
    cases hstep : channelStep g c users unbk t l2 with
    | mk c' r =>
      cases r with
      | error e => rw [hstep] at h; simp at h
      | ok st' =>
        obtain ⟨users', unbk', t', l2'⟩ := st'
        rw [hstep] at h
        simp only [] at h ⊢
        rw [List.map_cons, ih h]
        rw [(channelStep_ok_inv hstep).1]

theorem loop_ok_unbk {g : List String} {l : List channelConfig} :
    ∀ {users : List String} {unbk : List (String × String)} {t l2 : Bool},
      (validateChannelsLoop g l users unbk t l2).2.2 = none →
      (validateChannelsLoop g l users unbk t l2).2.1
        = unbk ++ (l.filter (fun c => c.Channel == "user")).map
            (fun c => (c.Key, c.UserName)) := by
  induction l with
  | nil => intro users unbk t l2 _; simp [validateChannelsLoop]
  | cons c rest ih =>
    intro users unbk t l2 h
    unfold validateChannelsLoop at h ⊢
    cases hstep : channelStep g c users unbk t l2 with
    | mk c' r =>
      cases r with
      | error e => rw [hstep] at h; simp at h
      | ok st' =>
        obtain ⟨users', unbk', t', l2'⟩ := st'
        rw [hstep] at h
        simp only [] at h ⊢
        rw [ih h]
        obtain ⟨-, -, hcase⟩ := channelStep_ok_inv hstep
        rcases hcase with ⟨hch, -, -, hst⟩ | ⟨hch, -, -, hst⟩ | ⟨hch, -, hst⟩ <;>
          [skip; skip; skip] <;>
          (injection hst with e1 hst2; injection hst2 with e2 _) <;>
          rw [List.filter_cons] <;> simp [hch, e2]

theorem loop_ok_pairs_ne {g : List String} {l : List channelConfig} :
    ∀ {users : List String} {unbk : List (String × String)} {t l2 : Bool},
      (validateChannelsLoop g l users unbk t l2).2.2 = none →
      ∀ c ∈ l, g.length + c.Pairs.length ≠ 0 := by
  induction l with
  | nil => intro users unbk t l2 _ c hc; cases hc
  | cons c rest ih =>
    intro users unbk t l2 h d hd
    unfold validateChannelsLoop at h
    cases hstep : channelStep g c users unbk t l2 with
    | mk c' r =>
      cases r with
      | error e => rw [hstep] at h; simp at h
      | ok st' =>
        obtain ⟨users', unbk', t', l2'⟩ := st'
        rw [hstep] at h
        simp only [] at h
        cases hd with
        | head => exact (channelStep_ok_inv hstep).2.1
        | tail _ hd' => exact ih h d hd'


theorem loop_ok_ticker_count {g : List String} {l : List channelConfig} :
    ∀ {users : List String} {unbk : List (String × String)} {t l2 : Bool},
      (validateChannelsLoop g l users unbk t l2).2.2 = none →
      (if t then 1 else 0) + l.countP (fun c => c.Channel == "ticker") ≤ 1 := by
  induction l with
  | nil =>
    intro users unbk t l2 _
    cases t <;> simp
  | cons c rest ih =>
    intro users unbk t l2 h
    unfold validateChannelsLoop at h
    cases hstep : channelStep g c users unbk t l2 with
    | mk c' r =>
      cases r with
      | error e => rw [hstep] at h; simp at h
      | ok st' =>
        obtain ⟨users', unbk', t', l2'⟩ := st'
        rw [hstep] at h
        simp only [] at h
        have hrec := ih h
        obtain ⟨-, -, hcase⟩ := channelStep_ok_inv hstep
        rw [List.countP_cons]
        rcases hcase with ⟨hch, ht, -, hst⟩ | ⟨hch, -, -, hst⟩ | ⟨hch, -, hst⟩
        · simp only [Prod.mk.injEq] at hst
          obtain ⟨-, -, e3, -⟩ := hst
          subst e3; subst ht
          simp only [hch, beq_self_eq_true, Bool.false_eq_true, Bool.true_eq_false,
            eq_self_iff_true, if_true, if_false, ite_true, ite_false] at hrec ⊢
          omega
        · simp only [Prod.mk.injEq] at hst
          obtain ⟨-, -, e3, -⟩ := hst
          subst e3
          have hne : (c.Channel == "ticker") = false := by
            simp [hch]
          simp only [hne, Bool.false_eq_true, if_false, ite_false] at *
          omega
        · simp only [Prod.mk.injEq] at hst
          obtain ⟨-, -, e3, -⟩ := hst
          subst e3
          have hne : (c.Channel == "ticker") = false := by
            simp [hch]
          simp only [hne, Bool.false_eq_true, if_false, ite_false] at *
          omega


theorem loop_ok_level2_count {g : List String} {l : List channelConfig} :
    ∀ {users : List String} {unbk : List (String × String)} {t l2 : Bool},
      (validateChannelsLoop g l users unbk t l2).2.2 = none →
      (if l2 then 1 else 0) + l.countP (fun c => c.Channel == "level2") ≤ 1 := by
  induction l with
  | nil =>
    intro users unbk t l2 _
    cases l2 <;> simp
  | cons c rest ih =>
    intro users unbk t l2 h
    unfold validateChannelsLoop at h
    cases hstep : channelStep g c users unbk t l2 with
    | mk c' r =>
      cases r with
      | error e => rw [hstep] at h; simp at h
      | ok st' =>
        obtain ⟨users', unbk', t', l2'⟩ := st'
        rw [hstep] at h
        simp only [] at h
        have hrec := ih h
        obtain ⟨-, -, hcase⟩ := channelStep_ok_inv hstep
        rw [List.countP_cons]
        rcases hcase with ⟨hch, -, -, hst⟩ | ⟨hch, hl2, -, hst⟩ | ⟨hch, -, hst⟩
        · simp only [Prod.mk.injEq] at hst
          obtain ⟨-, -, -, e4⟩ := hst
          subst e4
          have hne : (c.Channel == "level2") = false := by
            simp [hch]
          simp only [hne, Bool.false_eq_true, if_false, ite_false] at *
          omega
        · simp only [Prod.mk.injEq] at hst
          obtain ⟨-, -, -, e4⟩ := hst
          subst e4; subst hl2
          simp only [hch, beq_self_eq_true, Bool.false_eq_true, Bool.true_eq_false,
            eq_self_iff_true, if_true, if_false, ite_true, ite_false] at hrec ⊢
          omega
        · simp only [Prod.mk.injEq] at hst
          obtain ⟨-, -, -, e4⟩ := hst
          subst e4
          have hne : (c.Channel == "level2") = false := by
            simp [hch]
          simp only [hne, Bool.false_eq_true, if_false, ite_false] at *
          omega


theorem loop_ok_public_identity {g : List String} {l : List channelConfig} :
    ∀ {users : List String} {unbk : List (String × String)} {t l2 : Bool},
      (validateChannelsLoop g l users unbk t l2).2.2 = none →
      ∀ c ∈ l, c.Channel = "ticker" ∨ c.Channel = "level2" →
        c.UserName = "" ∧ c.Key = "" ∧ c.Secret = "" ∧ c.Passphrase = "" := by
  induction l with
  | nil => intro users unbk t l2 _ c hc; cases hc
  | cons c rest ih =>
    intro users unbk t l2 h d hd hpub
    unfold validateChannelsLoop at h
    cases hstep : channelStep g c users unbk t l2 with
    | mk c' r =>
      cases r with
      | error e => rw [hstep] at h; simp at h
      | ok st' =>
        obtain ⟨users', unbk', t', l2'⟩ := st'
        rw [hstep] at h
        simp only [] at h
        cases hd with
        | tail _ hd' => exact ih h d hd' hpub
        | head =>
          obtain ⟨-, -, hcase⟩ := channelStep_ok_inv hstep
          rcases hcase with ⟨-, -, hck, -⟩ | ⟨-, -, hck, -⟩ | ⟨hch, -, -⟩
          · exact checkTickerLevel2_none_inv hck
          · exact checkTickerLevel2_none_inv hck
          · rw [hch] at hpub
            rcases hpub with hp | hp <;> simp at hp

theorem loop_ok_user_ok {g : List String} {l : List channelConfig} :
    ∀ {users : List String} {unbk : List (String × String)} {t l2 : Bool},
      (validateChannelsLoop g l users unbk t l2).2.2 = none →
      ∀ c ∈ l, c.Channel = "user" → UserChannelOk c := by
  induction l with
  | nil => intro users unbk t l2 _ c hc; cases hc
  | cons c rest ih =>
    intro users unbk t l2 h d hd huser
    unfold validateChannelsLoop at h
    cases hstep : channelStep g c users unbk t l2 with
    | mk c' r =>
      cases r with
      | error e => rw [hstep] at h; simp at h
      | ok st' =>
        obtain ⟨users', unbk', t', l2'⟩ := st'
        rw [hstep] at h
        simp only [] at h
        cases hd with
        | tail _ hd' => exact ih h d hd' huser
        | head =>
          obtain ⟨-, -, hcase⟩ := channelStep_ok_inv hstep
          rcases hcase with ⟨hch, -, -, -⟩ | ⟨hch, -, -, -⟩ | ⟨-, hcu, -⟩
          · rw [huser] at hch; simp at hch
          · rw [huser] at hch; simp at hch
          · exact (checkUser_none_inv hcu).1



theorem loop_ok_names_nodup {g : List String} {l : List channelConfig} :
    ∀ {users : List String} {unbk : List (String × String)} {t l2 : Bool},
      (validateChannelsLoop g l users unbk t l2).2.2 = none →
      users.Nodup →
      (users ++ (l.filter (fun c => c.Channel == "user")).map
        (fun c => c.UserName)).Nodup := by
  induction l with
  | nil => intro users unbk t l2 _ hu; simpa using hu
  | cons c rest ih =>
    intro users unbk t l2 h hu
    unfold validateChannelsLoop at h
    cases hstep : channelStep g c users unbk t l2 with
    | mk c' r =>
      cases r with
      | error e => rw [hstep] at h; simp at h
      | ok st' =>
        obtain ⟨users', unbk', t', l2'⟩ := st'
        rw [hstep] at h
        simp only [] at h
        obtain ⟨-, -, hcase⟩ := channelStep_ok_inv hstep
        rw [List.filter_cons]
        rcases hcase with ⟨hch, -, -, hst⟩ | ⟨hch, -, -, hst⟩ | ⟨hch, hcu, hst⟩
        · have hne : (c.Channel == "user") = false := by simp [hch]
          rw [hne]
          simp only [Prod.mk.injEq] at hst
          obtain ⟨e1, e2, -, -⟩ := hst
          subst e1; subst e2
          exact ih h hu
        · have hne : (c.Channel == "user") = false := by simp [hch]
          rw [hne]
          simp only [Prod.mk.injEq] at hst
          obtain ⟨e1, e2, -, -⟩ := hst
          subst e1; subst e2
          exact ih h hu
        · have hye : (c.Channel == "user") = true := by simp [hch]
          rw [hye]
          simp only [Prod.mk.injEq] at hst
          obtain ⟨e1, e2, -, -⟩ := hst
          obtain ⟨-, hnin, -⟩ := checkUser_none_inv hcu
          have hu' : (users ++ [c.UserName]).Nodup := by
            rw [List.nodup_append]
            exact ⟨hu, List.nodup_singleton _, by
              intro a ha hb
              rw [List.mem_singleton] at hb
              subst hb
              exact hnin ha⟩
          have := ih (e1 ▸ e2 ▸ h) hu'
          simpa [List.append_assoc] using this

theorem loop_ok_keys_nodup {g : List String} {l : List channelConfig} :
    ∀ {users : List String} {unbk : List (String × String)} {t l2 : Bool},
      (validateChannelsLoop g l users unbk t l2).2.2 = none →
      (unbk.map Prod.fst).Nodup →
      ((unbk ++ (l.filter (fun c => c.Channel == "user")).map
        (fun c => (c.Key, c.UserName))).map Prod.fst).Nodup := by
  induction l with
  | nil => intro users unbk t l2 _ hk; simpa using hk
  | cons c rest ih =>
    intro users unbk t l2 h hk
    unfold validateChannelsLoop at h
    cases hstep : channelStep g c users unbk t l2 with
    | mk c' r =>
      cases r with
      | error e => rw [hstep] at h; simp at h
      | ok st' =>
        obtain ⟨users', unbk', t', l2'⟩ := st'
        rw [hstep] at h
        simp only [] at h
        obtain ⟨-, -, hcase⟩ := channelStep_ok_inv hstep
        rw [List.filter_cons]
        rcases hcase with ⟨hch, -, -, hst⟩ | ⟨hch, -, -, hst⟩ | ⟨hch, hcu, hst⟩
        · have hne : (c.Channel == "user") = false := by simp [hch]
          rw [hne]
          simp only [Prod.mk.injEq] at hst
          obtain ⟨e1, e2, -, -⟩ := hst
          subst e1; subst e2
          exact ih h hk
        · have hne : (c.Channel == "user") = false := by simp [hch]
          rw [hne]
          simp only [Prod.mk.injEq] at hst
          obtain ⟨e1, e2, -, -⟩ := hst
          subst e1; subst e2
          exact ih h hk
        · have hye : (c.Channel == "user") = true := by simp [hch]
          rw [hye]
          simp only [Prod.mk.injEq] at hst
          obtain ⟨e1, e2, -, -⟩ := hst
          subst e1; subst e2
          obtain ⟨-, -, hnin⟩ := checkUser_none_inv hcu
          have hk' : ((unbk ++ [(c.Key, c.UserName)]).map Prod.fst).Nodup := by
            rw [List.map_append, List.nodup_append]
            refine ⟨hk, by simp, ?_⟩
            intro a ha hb
            simp only [List.map_cons, List.map_nil, List.mem_singleton] at hb
            subst hb
            exact hnin ha
          have := ih h hk'
          simpa [List.append_assoc] using this


theorem loop_userErr_false {g : List String} {l : List channelConfig} :
    ∀ {users : List String} {unbk : List (String × String)} {t l2 : Bool} {e : ConfigErr},
      (∀ c ∈ l, c.Channel = "user" → UserChannelOk c) →
      (users ++ (l.filter (fun c => c.Channel == "user")).map
        (fun c => c.UserName)).Nodup →
      ((unbk ++ (l.filter (fun c => c.Channel == "user")).map
        (fun c => (c.Key, c.UserName))).map Prod.fst).Nodup →
      (validateChannelsLoop g l users unbk t l2).2.2 = some e →
      e.isUserErr = false := by
  induction l with
  | nil => intro users unbk t l2 e _ _ _ h; simp [validateChannelsLoop] at h
  | cons c rest ih =>
    intro users unbk t l2 e hok hnames hkeys h
    unfold validateChannelsLoop at h
    cases hstep : channelStep g c users unbk t l2 with
    | mk c' r =>
      cases r with
      | error e0 =>
        rw [hstep] at h
        simp only [Option.some.injEq] at h
        subst h
        by_cases hu : e0.isUserErr = true
        · exfalso
          obtain ⟨hch, hcu⟩ := channelStep_error_userErr hstep hu
          have hye : (c.Channel == "user") = true := by simp [hch]
          rw [List.filter_cons, hye] at hnames hkeys
          simp only [eq_self_iff_true, if_true, ite_true] at hnames hkeys
          have hnin : c.UserName ∉ users := by
            rw [List.map_cons, List.nodup_append] at hnames
            intro hmem
            exact hnames.2.2 hmem (List.mem_cons_self _ _)
          have hknin : c.Key ∉ unbk.map Prod.fst := by
            rw [List.map_cons, List.map_append, List.map_cons,
              List.nodup_append] at hkeys
            intro hmem
            exact hkeys.2.2 hmem (List.mem_cons_self _ _)
          have : checkUser c users unbk = none :=
            checkUser_none_of_ok (hok c (List.mem_cons_self _ _) hch) hnin hknin
          rw [this] at hcu
          cases hcu
        · exact Bool.not_eq_true _ ▸ hu
      | ok st' =>
        obtain ⟨users', unbk', t', l2'⟩ := st'
        rw [hstep] at h
        simp only [] at h
        obtain ⟨-, -, hcase⟩ := channelStep_ok_inv hstep
        rcases hcase with ⟨hch, -, -, hst⟩ | ⟨hch, -, -, hst⟩ | ⟨hch, hcu, hst⟩
        · have hne : (c.Channel == "user") = false := by simp [hch]
          rw [List.filter_cons, hne] at hnames hkeys
          simp only [Bool.false_eq_true, if_false, ite_false] at hnames hkeys
          simp only [Prod.mk.injEq] at hst
          obtain ⟨e1, e2, -, -⟩ := hst
          subst e1; subst e2
          exact ih (fun d hd => hok d (List.mem_cons_of_mem _ hd)) hnames hkeys h
        · have hne : (c.Channel == "user") = false := by simp [hch]
          rw [List.filter_cons, hne] at hnames hkeys
          simp only [Bool.false_eq_true, if_false, ite_false] at hnames hkeys
          simp only [Prod.mk.injEq] at hst
          obtain ⟨e1, e2, -, -⟩ := hst
          subst e1; subst e2
          exact ih (fun d hd => hok d (List.mem_cons_of_mem _ hd)) hnames hkeys h
        · have hye : (c.Channel == "user") = true := by simp [hch]
          rw [List.filter_cons, hye] at hnames hkeys
          simp only [eq_self_iff_true, if_true, ite_true] at hnames hkeys
          simp only [Prod.mk.injEq] at hst
          obtain ⟨e1, e2, -, -⟩ := hst
          subst e1; subst e2
          refine ih (fun d hd => hok d (List.mem_cons_of_mem _ hd)) ?_ ?_ h
          · simpa [List.append_assoc] using hnames
          · simpa [List.append_assoc] using hkeys


theorem subIDState_go_bound (l : List channelConfig) :
    ∀ (i : Nat) (b : Bool),
      2 * (l.foldl (fun st c =>
        if c.Channel == "user" then
          if st.2 then (st.1 + 1, false) else (st.1, true)
        else st) (i, b)).1 +
        (if (l.foldl (fun st c =>
          if c.Channel == "user" then
            if st.2 then (st.1 + 1, false) else (st.1, true)
          else st) (i, b)).2 then 1 else 0) ≤
      2 * i + (if b then 1 else 0) + usersCount l := by
  induction l with
  | nil =>
    intro i b
    simp [usersCount]
  | cons c rest ih =>
    intro i b
    rw [List.foldl_cons]
    unfold usersCount
    rw [List.filter_cons]
    cases hc : c.Channel == "user" with
    | true =>
      simp only [eq_self_iff_true, if_true, ite_true, List.length_cons]
      cases b with
      | true =>
        simp only [ite_true, if_true]
        have := ih (i + 1) false
        simp only [Bool.false_eq_true, if_false, ite_false] at this
        unfold usersCount at this
        omega
      | false =>
        simp only [Bool.false_eq_true, ite_false, if_false]
        have := ih i true
        simp only [ite_true, if_true] at this
        unfold usersCount at this
        omega
    | false =>
      simp only [Bool.false_eq_true, if_false, ite_false]
      have := ih i b
      unfold usersCount at this
      omega

theorem subIDAfter_le (l : List channelConfig) :
    2 * subIDAfter l ≤ usersCount l := by
  have := subIDState_go_bound l 0 false
  unfold subIDAfter subIDState
  simp only [Bool.false_eq_true, if_false, ite_false] at this
  omega

theorem usersCount_append (l1 l2 : List channelConfig) :
    usersCount (l1 ++ l2) = usersCount l1 + usersCount l2 := by
  unfold usersCount
  rw [List.filter_append, List.length_append]

theorem usersCount_map_pairs (g : List String) (l : List channelConfig) :
    usersCount (l.map (fun c => { c with Pairs := dedupUpperExcluding g c.Pairs }))
      = usersCount l := by
  induction l with
  | nil => rfl
  | cons c rest ih =>
    unfold usersCount at ih ⊢
    rw [List.map_cons, List.filter_cons, List.filter_cons]
    cases hc : c.Channel == "user" <;> simp [hc, ih]


theorem listModify_length (l : List α) (i : Nat) (f : α → α) :
    (listModify l i f).length = l.length := by
  induction l generalizing i with
  | nil => rfl
  | cons x rest ih =>
    cases i with
    | zero => rfl
    | succ n => simp [listModify, ih]

theorem genLoop_length (now : Nat) (l : List channelConfig) :
    ∀ (subs : List subscribeRequest) (subID : Nat) (hasUser : Bool),
      (genLoop now l subs subID hasUser).length = subs.length := by
  induction l with
  | nil => intro subs subID hasUser; rfl
  | cons c rest ih =>
    intro subs subID hasUser
    unfold genLoop
    by_cases hc : c.Channel = "user"
    · rw [if_pos hc, ih, listModify_length]
    · rw [if_neg hc, ih, listModify_length]

theorem generateSubscribeRequests_length (now : Nat) (gx : GdaxWebsocket) :
    (generateSubscribeRequests now gx).length = max 1 gx.userNamesByKey.length := by
  unfold generateSubscribeRequests
  rw [List.length_map, genLoop_length, List.length_replicate]
  cases h : gx.userNamesByKey.length with
  | zero => rfl
  | succ n => cases n <;> simp <;> omega

theorem validateConfig_ok_elim {gx gx' : GdaxWebsocket}
    (h : validateConfig gx = (gx', none)) :
    gx.FeedURL.length ≠ 0 ∧ gx.Channels.length ≠ 0 ∧
    (validateChannelsLoop (dedupUpper gx.Pairs) gx.Channels [] [] false false).2.2
      = none ∧
    gx' = { gx with
              Pairs := dedupUpper gx.Pairs,
              Channels :=
                (validateChannelsLoop (dedupUpper gx.Pairs)
                  gx.Channels [] [] false false).1,
              userNamesByKey :=
                (validateChannelsLoop (dedupUpper gx.Pairs)
                  gx.Channels [] [] false false).2.1 } := by
  unfold validateConfig at h
  split_ifs at h with h1 h2
  · simp at h
  · simp at h
  · simp only [] at h
    split at h
    · simp at h
    · rename_i hloop
      simp only [Prod.mk.injEq] at h
      exact ⟨h1, h2, hloop, h.1.symm⟩

theorem validateConfig_err_elim {gx gx' : GdaxWebsocket} {e : ConfigErr}
    (h : validateConfig gx = (gx', some e)) :
    gx'.userNamesByKey = gx.userNamesByKey := by
  unfold validateConfig at h
  split_ifs at h with h1 h2
  · simp only [Prod.mk.injEq] at h
    rw [← h.1]
  · simp only [Prod.mk.injEq] at h
    rw [← h.1]
  · simp only [] at h
    split at h
    · simp only [Prod.mk.injEq] at h
      rw [← h.1]
    · simp at h


theorem checkResPairs_none_iff (qs gs : List String) :
    ∀ rs : List String,
      checkResPairs qs gs rs = none ↔ ∀ p ∈ rs, p ∈ qs ∨ p ∈ gs := by
  intro rs
  induction rs with
  | nil => simp [checkResPairs]
  | cons p rest ih =>
    unfold checkResPairs
    cases hq : qs.contains p with
    | true =>
      simp only [eq_self_iff_true, if_true, ite_true]
      rw [ih]
      constructor
      · intro hall q hq'
        rcases hq' with _ | hq'
        · exact Or.inl ((contains_iff_mem _ _).mp hq)
        · exact hall q (by assumption)
      · intro hall q hq'
        exact hall q (List.mem_cons_of_mem _ hq')
    | false =>
      simp only [Bool.false_eq_true, if_false, ite_false]
      cases hg : gs.contains p with
      | true =>
        simp only [eq_self_iff_true, if_true, ite_true]
        rw [ih]
        constructor
        · intro hall q hq'
          rcases hq' with _ | hq'
          · exact Or.inr ((contains_iff_mem _ _).mp hg)
          · exact hall q (by assumption)
        · intro hall q hq'
          exact hall q (List.mem_cons_of_mem _ hq')
      | false =>
        simp only [Bool.false_eq_true, if_false, ite_false]
        constructor
        · intro hcon; cases hcon
        · intro hall
          rcases hall p (List.mem_cons_self _ _) with hm | hm
          · rw [(contains_iff_mem qs p).mpr hm] at hq; cases hq
          · rw [(contains_iff_mem gs p).mpr hm] at hg; cases hg

theorem checkResPairs_values (qs gs : List String) :
    ∀ rs : List String,
      checkResPairs qs gs rs = none ∨
        checkResPairs qs gs rs = some .pairMismatch := by
  intro rs
  induction rs with
  | nil => exact Or.inl rfl
  | cons p rest ih =>
    unfold checkResPairs
    cases hq : qs.contains p with
    | true => simpa using ih
    | false =>
      cases hg : gs.contains p with
      | true => simpa using ih
      | false => simp

theorem validateChannelPairs_none_iff (qs gs rs : List String) :
    validateChannelPairs qs gs rs = none ↔
      (rs.length = qs.length + gs.length ∧ ∀ p ∈ rs, p ∈ qs ∨ p ∈ gs) := by
  unfold validateChannelPairs
  split_ifs with hlen
  · constructor
    · intro hcon; cases hcon
    · intro hc; exact absurd hc.1.symm hlen
  · rw [checkResPairs_none_iff]
    constructor
    · intro h; exact ⟨(of_not_not hlen).symm, h⟩
    · intro hc; exact hc.2

theorem validateChannelPairs_values (qs gs rs : List String) :
    validateChannelPairs qs gs rs = none ∨
      validateChannelPairs qs gs rs = some .pairLen ∨
      validateChannelPairs qs gs rs = some .pairMismatch := by
  unfold validateChannelPairs
  split_ifs with hlen
  · exact Or.inr (Or.inl rfl)
  · rcases checkResPairs_values qs gs rs with h | h
    · exact Or.inl h
    · exact Or.inr (Or.inr h)


theorem resChannelLoop_none_iff (g : List String) (rc : channelConfig) :
    ∀ (qs : List channelConfig) (matched : Bool),
      resChannelLoop g rc qs matched = none ↔
        ((matched = true ∨ ∃ qc ∈ qs, rc.Channel = qc.Channel) ∧
          ∀ qc ∈ qs, rc.Channel = qc.Channel →
            validateChannelPairs qc.Pairs g rc.Pairs = none) := by
  intro qs
  induction qs with
  | nil =>
    intro matched
    cases matched <;> simp [resChannelLoop]
  | cons qc rest ih =>
    intro matched
    unfold resChannelLoop
    by_cases hname : rc.Channel = qc.Channel
    · rw [if_pos hname]
      cases hvcp : validateChannelPairs qc.Pairs g rc.Pairs with
      | some e =>
        simp only []
        constructor
        · intro hcon; cases hcon
        · intro hc
          have := hc.2 qc (List.mem_cons_self _ _) hname
          rw [this] at hvcp; cases hvcp
      | none =>
        simp only []
        rw [ih true]
        constructor
        · intro hc
          refine ⟨Or.inr ⟨qc, List.mem_cons_self _ _, hname⟩, ?_⟩
          intro qd hqd hqd'
          rcases hqd with _ | hqd
          · exact hvcp
          · exact hc.2 qd (by assumption) hqd'
        · intro hc
          refine ⟨Or.inl rfl, ?_⟩
          intro qd hqd hqd'
          exact hc.2 qd (List.mem_cons_of_mem _ hqd) hqd'
    · rw [if_neg hname]
      rw [ih matched]
      constructor
      · intro hc
        refine ⟨?_, ?_⟩
        · rcases hc.1 with hm | ⟨qd, hqd, hqd'⟩
          · exact Or.inl hm
          · exact Or.inr ⟨qd, List.mem_cons_of_mem _ hqd, hqd'⟩
        · intro qd hqd hqd'
          rcases hqd with _ | hqd
          · exact absurd hqd' hname
          · exact hc.2 qd (by assumption) hqd'
      · intro hc
        refine ⟨?_, ?_⟩
        · rcases hc.1 with hm | ⟨qd, hqd, hqd'⟩
          · exact Or.inl hm
          · rcases hqd with _ | hqd
            · exact absurd hqd' hname
            · exact Or.inr ⟨qd, by assumption, hqd'⟩
        · intro qd hqd hqd'
          exact hc.2 qd (List.mem_cons_of_mem _ hqd) hqd'

theorem resChannelLoop_values (g : List String) (rc : channelConfig) :
    ∀ (qs : List channelConfig) (matched : Bool),
      resChannelLoop g rc qs matched = none ∨
        resChannelLoop g rc qs matched = some .channelMismatch ∨
        resChannelLoop g rc qs matched = some .pairLen ∨
        resChannelLoop g rc qs matched = some .pairMismatch := by
  intro qs
  induction qs with
  | nil =>
    intro matched
    cases matched <;> simp [resChannelLoop]
  | cons qc rest ih =>
    intro matched
    unfold resChannelLoop
    by_cases hname : rc.Channel = qc.Channel
    · rw [if_pos hname]
      cases hvcp : validateChannelPairs qc.Pairs g rc.Pairs with
      | some e =>
        rcases validateChannelPairs_values qc.Pairs g rc.Pairs with h | h | h <;>
          rw [hvcp] at h
        · cases h
        · simp only [Option.some.injEq] at h
          subst h; simp
        · simp only [Option.some.injEq] at h
          subst h; simp
      | none => exact ih true
    · rw [if_neg hname]
      exact ih matched

theorem resChannelLoop_mismatch (g : List String) (rc : channelConfig) :
    ∀ (qs : List channelConfig) (matched : Bool),
      resChannelLoop g rc qs matched = some .channelMismatch →
      matched = false ∧ ∀ qc ∈ qs, rc.Channel ≠ qc.Channel := by
  intro qs
  induction qs with
  | nil =>
    intro matched h
    cases matched
    · exact ⟨rfl, by intro qc hqc; cases hqc⟩
    · cases h
  | cons qc rest ih =>
    intro matched h
    unfold resChannelLoop at h
    by_cases hname : rc.Channel = qc.Channel
    · rw [if_pos hname] at h
      cases hvcp : validateChannelPairs qc.Pairs g rc.Pairs with
      | some e =>
        rw [hvcp] at h
        simp only [Option.some.injEq] at h
        rcases validateChannelPairs_values qc.Pairs g rc.Pairs with hv | hv | hv <;>
          rw [hvcp] at hv
        · cases hv
        · simp only [Option.some.injEq] at hv
          rw [hv] at h; cases h
        · simp only [Option.some.injEq] at hv
          rw [hv] at h; cases h
      | none =>
        rw [hvcp] at h
        simp only [] at h
        have := (ih true h).1
        cases this
    · rw [if_neg hname] at h
      obtain ⟨hm, hall⟩ := ih matched h
      refine ⟨hm, ?_⟩
      intro qd hqd
      rcases hqd with _ | hqd
      · exact hname
      · exact hall qd (by assumption)

theorem resChannelLoop_pairErr (g : List String) (rc : channelConfig) :
    ∀ (qs : List channelConfig) (matched : Bool),
      (resChannelLoop g rc qs matched = some .pairLen ∨
        resChannelLoop g rc qs matched = some .pairMismatch) →
      ∃ qc ∈ qs, rc.Channel = qc.Channel ∧
        validateChannelPairs qc.Pairs g rc.Pairs ≠ none := by
  intro qs
  induction qs with
  | nil =>
    intro matched h
    cases matched <;> rcases h with h | h <;> cases h
  | cons qc rest ih =>
    intro matched h
    unfold resChannelLoop at h
    by_cases hname : rc.Channel = qc.Channel
    · rw [if_pos hname] at h
      cases hvcp : validateChannelPairs qc.Pairs g rc.Pairs with
      | some e =>
        exact ⟨qc, List.mem_cons_self _ _, hname, by rw [hvcp]; intro hc; cases hc⟩
      | none =>
        rw [hvcp] at h
        simp only [] at h
        obtain ⟨qd, hqd, hq1, hq2⟩ := ih true h
        exact ⟨qd, List.mem_cons_of_mem _ hqd, hq1, hq2⟩
    · rw [if_neg hname] at h
      obtain ⟨qd, hqd, hq1, hq2⟩ := ih matched h
      exact ⟨qd, List.mem_cons_of_mem _ hqd, hq1, hq2⟩


theorem resChannelsLoop_none_iff (qs : List channelConfig) (g : List String) :
    ∀ rcs : List channelConfig,
      resChannelsLoop qs g rcs = none ↔
        ∀ rc ∈ rcs, resChannelLoop g rc qs false = none := by
  intro rcs
  induction rcs with
  | nil => simp [resChannelsLoop]
  | cons rc rest ih =>
    unfold resChannelsLoop
    cases hr : resChannelLoop g rc qs false with
    | some e =>
      simp only []
      constructor
      · intro hcon; cases hcon
      · intro hall
        have := hall rc (List.mem_cons_self _ _)
        rw [this] at hr; cases hr
    | none =>
      simp only []
      rw [ih]
      constructor
      · intro hall rd hrd
        rcases hrd with _ | hrd
        · exact hr
        · exact hall rd (by assumption)
      · intro hall rd hrd
        exact hall rd (List.mem_cons_of_mem _ hrd)

theorem resChannelsLoop_some (qs : List channelConfig) (g : List String) :
    ∀ (rcs : List channelConfig) (e : HsErr),
      resChannelsLoop qs g rcs = some e →
      ∃ rc ∈ rcs, resChannelLoop g rc qs false = some e := by
  intro rcs
  induction rcs with
  | nil => intro e h; cases h
  | cons rc rest ih =>
    intro e h
    unfold resChannelsLoop at h
    cases hr : resChannelLoop g rc qs false with
    | some e0 =>
      rw [hr] at h
      simp only [Option.some.injEq] at h
      subst h
      exact ⟨rc, List.mem_cons_self _ _, hr⟩
    | none =>
      rw [hr] at h
      simp only [] at h
      obtain ⟨rd, hrd, hr'⟩ := ih e h
      exact ⟨rd, List.mem_cons_of_mem _ hrd, hr'⟩


theorem h8ToBytes_length (st : H8) : (h8ToBytes st).length = 32 := rfl

theorem sha256_length (msg : List Nat) : (sha256 msg).length = 32 :=
  h8ToBytes_length _

theorem sha256_ne_nil (msg : List Nat) : sha256 msg ≠ [] := by
  intro h
  have := sha256_length msg
  rw [h] at this
  cases this

theorem b64EncodeList_ne_nil {l : List Nat} (h : l ≠ []) :
    b64EncodeList l ≠ [] := by
  match l with
  | [] => exact absurd rfl h
  | b1 :: [] => intro hc; cases hc
  | b1 :: b2 :: [] => intro hc; cases hc
  | b1 :: b2 :: b3 :: rest => intro hc; cases hc

theorem base64Encode_ne_empty {l : List Nat} (h : l ≠ []) :
    base64Encode l ≠ "" := by
  unfold base64Encode
  intro hc
  rw [String.ext_iff] at hc
  exact b64EncodeList_ne_nil h hc

theorem gdaxSign_ne_empty {secret ts : String} (h : base64Valid secret = true) :
    gdaxSign secret ts ≠ "" := by
  unfold gdaxSign
  unfold base64Valid at h
  cases hd : base64Decode secret with
  | none => rw [hd] at h; cases h
  | some key =>
    apply base64Encode_ne_empty
    unfold hmacSha256
    simp only []
    exact sha256_ne_nil _

theorem decimalDigitsAux_ne_nil {fuel n : Nat} (h : n ≠ 0) :
    decimalDigitsAux (fuel + 1) n ≠ [] := by
  unfold decimalDigitsAux
  rw [if_neg h]
  simp

theorem decimalRepr_ne_empty (n : Nat) : decimalRepr n ≠ "" := by
  unfold decimalRepr
  split_ifs with h
  · decide
  · intro hc
    rw [String.ext_iff] at hc
    exact decimalDigitsAux_ne_nil h hc


theorem validateConfig_err_cases {gx gx' : GdaxWebsocket} {e : ConfigErr}
    (h : validateConfig gx = (gx', some e)) :
    e = .noFeedURL ∨ e = .noChannels ∨
      (validateChannelsLoop (dedupUpper gx.Pairs) gx.Channels [] [] false false).2.2
        = some e := by
  unfold validateConfig at h
  split_ifs at h with h1 h2
  · simp only [Prod.mk.injEq, Option.some.injEq] at h
    exact Or.inl h.2.symm
  · simp only [Prod.mk.injEq, Option.some.injEq] at h
    exact Or.inr (Or.inl h.2.symm)
  · simp only [] at h
    split at h
    · rename_i hloop
      simp only [Prod.mk.injEq, Option.some.injEq] at h
      exact Or.inr (Or.inr (h.2 ▸ hloop))
    · simp at h

theorem dedupUpperExcluding_nil_ne {l : List String} (h : l ≠ []) :
    dedupUpperExcluding [] l ≠ [] := by
  cases l with
  | nil => exact absurd rfl h
  | cons x t =>
    rw [dedupUpperExcluding_spec]
    unfold specChannelPairs
    rw [List.map_cons, specFirstSeenDedup_cons, List.filter_cons]
    simp [List.contains]



/-! ## The claims -/

/-- C6: validation normalizes the global pair list by upper-casing each
symbol and dropping duplicates in first-seen order (the loop equals the
spec's declarative formulation), and the example global pair input
`["eth-usd", "BTC-ETH", "ETH-USD"]` normalizes to exactly
`["ETH-USD", "BTC-ETH"]`. -/
theorem C6_global_pair_normalization :
    (∀ l : List String, dedupUpper l = specFirstSeenDedup (l.map strUpper)) ∧
    (validateConfig pairsExampleGdax).1.Pairs = ["ETH-USD", "BTC-ETH"] :=
  ⟨dedupUpper_spec, by decide⟩

/-- C5: for every accepted configuration, each channel's stored pair list
equals its input pairs upper-cased, deduplicated in first-seen order, with
the pairs of the normalized global list removed; the union of the global
pairs and any channel's effective pairs is never empty; and a channel whose
specific pairs are covered by the global pairs is still accepted, ending
with an empty effective-pair list. -/
theorem C5_channel_pair_normalization :
    (∀ gx gx' : GdaxWebsocket, validateConfig gx = (gx', none) →
      gx'.Channels.map (fun c => c.Pairs) =
        gx.Channels.map (fun c => specChannelPairs gx'.Pairs c.Pairs)) ∧
    (∀ gx gx' : GdaxWebsocket, validateConfig gx = (gx', none) →
      ∀ c' ∈ gx'.Channels, gx'.Pairs ++ c'.Pairs ≠ []) ∧
    ((validateConfig subsetPairsGdax).2 = none ∧
      (validateConfig subsetPairsGdax).1.Channels.map (fun c => c.Pairs) = [[]]) := by
  refine ⟨?_, ?_, by decide, by decide⟩
  · intro gx gx' h
    obtain ⟨-, -, hloop, hgx'⟩ := validateConfig_ok_elim h
    rw [hgx']
    simp only []
    rw [loop_ok_channels hloop, List.map_map]
    apply List.map_congr_left
    intro c _
    simp only [Function.comp]
    rw [dedupUpperExcluding_spec]
  · intro gx gx' h c' hc'
    obtain ⟨-, -, hloop, hgx'⟩ := validateConfig_ok_elim h
    rw [hgx'] at hc' ⊢
    simp only [] at hc' ⊢
    rw [loop_ok_channels hloop] at hc'
    rw [List.mem_map] at hc'
    obtain ⟨c, hc, hrw⟩ := hc'
    have hne := loop_ok_pairs_ne hloop c hc
    subst hrw
    simp only []
    cases hg : dedupUpper gx.Pairs with
    | cons p t => simp
    | nil =>
      rw [hg] at hne
      simp only [List.length_nil, Nat.zero_add] at hne
      rw [List.nil_append]
      apply dedupUpperExcluding_nil_ne
      intro hcn
      rw [hcn] at hne
      exact hne rfl


/-- C7: validation rejects a configuration declaring `ticker` twice or
`level2` twice; on success every `ticker` or `level2` channel carries no
identity fields (so any such channel with a non-empty identity field is
rejected); and one `ticker` plus one `level2` with pairs and no identity
fields is accepted. -/
theorem C7_ticker_level2_rules :
    (∀ gx : GdaxWebsocket,
      2 ≤ gx.Channels.countP (fun c => c.Channel == "ticker") →
      (validateConfig gx).2 ≠ none) ∧
    (∀ gx : GdaxWebsocket,
      2 ≤ gx.Channels.countP (fun c => c.Channel == "level2") →
      (validateConfig gx).2 ≠ none) ∧
    (∀ gx gx' : GdaxWebsocket, validateConfig gx = (gx', none) →
      ∀ c ∈ gx.Channels, c.Channel = "ticker" ∨ c.Channel = "level2" →
        c.UserName = "" ∧ c.Key = "" ∧ c.Secret = "" ∧ c.Passphrase = "") ∧
    (validateConfig tickerLevel2Gdax).2 = none := by
  refine ⟨?_, ?_, ?_, by decide⟩
  · intro gx hcount hnone
    have h : validateConfig gx = ((validateConfig gx).1, none) := by
      rw [← hnone]
    obtain ⟨-, -, hloop, -⟩ := validateConfig_ok_elim h
    have := loop_ok_ticker_count hloop
    simp only [Bool.false_eq_true, if_false, ite_false] at this
    omega
  · intro gx hcount hnone
    have h : validateConfig gx = ((validateConfig gx).1, none) := by
      rw [← hnone]
    obtain ⟨-, -, hloop, -⟩ := validateConfig_ok_elim h
    have := loop_ok_level2_count hloop
    simp only [Bool.false_eq_true, if_false, ite_false] at this
    omega
  · intro gx gx' h c hc hpub
    obtain ⟨-, -, hloop, -⟩ := validateConfig_ok_elim h
    exact loop_ok_public_identity hloop c hc hpub

/-- C7 witness: the two-ticker and two-level2 fixtures are rejected, the
identity-field consequence holds for the valid fixture, and the acceptance
conjunct is closed. -/
theorem C7_ticker_level2_rules_witness :
    (validateConfig twoTickerGdax).2 ≠ none ∧
    (validateConfig twoLevel2Gdax).2 ≠ none ∧
    tickerChannelConfig.UserName = "" :=
  ⟨C7_ticker_level2_rules.1 twoTickerGdax (by decide),
   C7_ticker_level2_rules.2.1 twoLevel2Gdax (by decide),
   (C7_ticker_level2_rules.2.2.1 validTestGdax (validateConfig validTestGdax).1
     (by decide) tickerChannelConfig (by decide) (Or.inl (by decide))).1⟩

/-- C8: on success every `user` channel has non-empty user name, key,
secret and passphrase with base64-decodable key and secret, and the user
names and keys of the `user` channels are pairwise distinct (so a
configuration violating any of these is rejected); conversely, when every
`user` channel satisfies these conditions, any validation error is not one
of the user-channel error kinds; and the repository's two-user fixture is
accepted. -/
theorem C8_user_channel_rules :
    (∀ gx gx' : GdaxWebsocket, validateConfig gx = (gx', none) →
      (∀ c ∈ gx.Channels, c.Channel = "user" → UserChannelOk c) ∧
      ((gx.Channels.filter (fun c => c.Channel == "user")).map
        (fun c => c.UserName)).Nodup ∧
      ((gx.Channels.filter (fun c => c.Channel == "user")).map
        (fun c => c.Key)).Nodup) ∧
    (∀ gx gx' : GdaxWebsocket, ∀ e : ConfigErr, validateConfig gx = (gx', some e) →
      (∀ c ∈ gx.Channels, c.Channel = "user" → UserChannelOk c) →
      ((gx.Channels.filter (fun c => c.Channel == "user")).map
        (fun c => c.UserName)).Nodup →
      ((gx.Channels.filter (fun c => c.Channel == "user")).map
        (fun c => c.Key)).Nodup →
      e.isUserErr = false) ∧
    (validateConfig validTestGdax).2 = none := by
  refine ⟨?_, ?_, by decide⟩
  · intro gx gx' h
    obtain ⟨-, -, hloop, -⟩ := validateConfig_ok_elim h
    refine ⟨fun c hc => loop_ok_user_ok hloop c hc, ?_, ?_⟩
    · have := loop_ok_names_nodup hloop List.nodup_nil
      simpa using this
    · have := loop_ok_keys_nodup hloop (by simp)
      simp only [List.nil_append, List.map_map] at this
      have heq : List.map (Prod.fst ∘ fun c : channelConfig => (c.Key, c.UserName))
          (gx.Channels.filter (fun c => c.Channel == "user"))
          = (gx.Channels.filter (fun c => c.Channel == "user")).map
              (fun c => c.Key) := by
        apply List.map_congr_left
        intro c _
        rfl
      rw [heq] at this
      exact this
  · intro gx gx' e h hok hnames hkeys
    rcases validateConfig_err_cases h with he | he | he
    · subst he; rfl
    · subst he; rfl
    · refine loop_userErr_false hok ?_ ?_ he
      · simpa using hnames
      · simp only [List.nil_append, List.map_map]
        have heq : List.map (Prod.fst ∘ fun c : channelConfig => (c.Key, c.UserName))
            (gx.Channels.filter (fun c => c.Channel == "user"))
            = (gx.Channels.filter (fun c => c.Channel == "user")).map
                (fun c => c.Key) := by
          apply List.map_congr_left
          intro c _
          rfl
        rw [heq]
        exact hkeys


/-- C8 witness: the theorem applied to the accepted two-user fixture
(forward direction) and to the rejected empty-feed fixture (error-kind
direction). -/
theorem C8_user_channel_rules_witness :
    UserChannelOk userChannelConfig1 ∧
    ConfigErr.isUserErr .noFeedURL = false :=
  ⟨(C8_user_channel_rules.1 validTestGdax (validateConfig validTestGdax).1
      (by decide)).1 userChannelConfig1 (by decide) (by decide),
   C8_user_channel_rules.2.1 emptyFeedGdax emptyFeedGdax .noFeedURL
     (by decide) (by decide) (by decide) (by decide)⟩

/-- C10: `validateConfig` commits the key-to-user-name map only after every
channel has validated: on any error the `userNamesByKey` field is exactly
what it was before the call, and on success its size equals the number of
`user` channels in the configuration. -/
theorem C10_userNamesByKey_frame :
    (∀ gx gx' : GdaxWebsocket, ∀ e : ConfigErr,
      validateConfig gx = (gx', some e) →
      gx'.userNamesByKey = gx.userNamesByKey) ∧
    (∀ gx gx' : GdaxWebsocket, validateConfig gx = (gx', none) →
      gx'.userNamesByKey.length = usersCount gx.Channels) := by
  constructor
  · intro gx gx' e h
    exact validateConfig_err_elim h
  · intro gx gx' h
    obtain ⟨-, -, hloop, hgx'⟩ := validateConfig_ok_elim h
    rw [hgx']
    simp only []
    rw [loop_ok_unbk hloop]
    unfold usersCount
    rw [List.nil_append, List.length_map]

/-- C10 witness: the empty-feed fixture errors with the map untouched, and
the valid two-user fixture ends with a two-entry map. -/
theorem C10_userNamesByKey_frame_witness :
    (validateConfig emptyFeedGdax).1.userNamesByKey = emptyFeedGdax.userNamesByKey ∧
    (validateConfig validTestGdax).1.userNamesByKey.length
      = usersCount validTestGdax.Channels :=
  ⟨C10_userNamesByKey_frame.1 emptyFeedGdax (validateConfig emptyFeedGdax).1
      .noFeedURL (by decide),
   C10_userNamesByKey_frame.2 validTestGdax (validateConfig validTestGdax).1
      (by decide)⟩

/-- C9: for every accepted configuration the planner never indexes outside
the allocated bundle slice: after walking any prefix of the validated
channel list the current bundle index (which is the index every append or
credential assignment of the next step uses) is strictly below the number
of allocated bundles, `max 1 (number of distinct user keys)`. -/
theorem C9_no_out_of_bounds :
    ∀ (now : Nat) (gx gx' : GdaxWebsocket), validateConfig gx = (gx', none) →
      ∀ pre suf : List channelConfig, gx'.Channels = pre ++ suf →
        subIDAfter pre < (generateSubscribeRequests now gx').length := by
  intro now gx gx' h pre suf hsplit
  rw [generateSubscribeRequests_length]
  obtain ⟨-, -, hloop, hgx'⟩ := validateConfig_ok_elim h
  have hU : usersCount gx'.Channels = gx'.userNamesByKey.length := by
    rw [hgx']
    simp only []
    rw [loop_ok_channels hloop, loop_ok_unbk hloop, usersCount_map_pairs]
    unfold usersCount
    rw [List.nil_append, List.length_map]
  have hpre : usersCount pre ≤ usersCount gx'.Channels := by
    rw [hsplit, usersCount_append]
    omega
  have hbound := subIDAfter_le pre
  rw [hU] at hpre
  omega

/-- C9 witness: the theorem applied to the valid fixture at the prefix
holding its first three channels. -/
theorem C9_no_out_of_bounds_witness :
    subIDAfter [tickerChannelConfig, level2ChannelConfig,
      { userChannelConfig1 with Pairs := ["BTC-USD", "ETH-USD"] }] <
      (generateSubscribeRequests 1500000000 (validateConfig validTestGdax).1).length :=
  C9_no_out_of_bounds 1500000000 validTestGdax (validateConfig validTestGdax).1
    (by decide)
    [tickerChannelConfig, level2ChannelConfig,
      { userChannelConfig1 with Pairs := ["BTC-USD", "ETH-USD"] }]
    [{ userChannelConfig2 with Pairs := ["BTC-USD", "ETH-USD"] }]
    (by decide)


/-- C3: handshake validation succeeds exactly when the acknowledgement has
type `subscriptions`, matching channel counts, every acknowledged channel
matches a sent channel by name, and every name match satisfies the pair
condition (length equals effective pairs plus global pairs, every pair in
their union); each violated condition yields its error kind. -/
theorem C3_handshake_validation :
    ∀ (req : subscribeRequest) (res : subscribeResponse),
      (validateSubscribeResponse req res = none ↔ HsSpec req res) ∧
      (validateSubscribeResponse req res = some .badType ↔
        res.Type' ≠ "subscriptions") ∧
      (validateSubscribeResponse req res = some .channelsLen ↔
        (res.Type' = "subscriptions" ∧ res.Channels.length ≠ req.Channels.length)) ∧
      (validateSubscribeResponse req res = some .channelMismatch →
        ∃ rc ∈ res.Channels, ∀ qc ∈ req.Channels, rc.Channel ≠ qc.Channel) ∧
      ((validateSubscribeResponse req res = some .pairLen ∨
          validateSubscribeResponse req res = some .pairMismatch) →
        ∃ rc ∈ res.Channels, ∃ qc ∈ req.Channels,
          rc.Channel = qc.Channel ∧ ¬ PairsOk qc req.Pairs rc) := by
  intro req res
  unfold validateSubscribeResponse
  by_cases htype : res.Type' = "subscriptions"
  · rw [if_neg (by simpa using htype)]
    by_cases hlen : res.Channels.length = req.Channels.length
    · rw [if_neg (by simpa using hlen)]
      refine ⟨?_, ?_, ?_, ?_, ?_⟩
      · rw [resChannelsLoop_none_iff]
        unfold HsSpec
        constructor
        · intro hall
          refine ⟨htype, hlen, ?_⟩
          intro rc hrc
          have := (resChannelLoop_none_iff req.Pairs rc req.Channels false).mp
            (hall rc hrc)
          obtain ⟨hex, hvp⟩ := this
          rcases hex with hfalse | hex
          · cases hfalse
          · refine ⟨hex, ?_⟩
            intro qc hqc hname
            have := hvp qc hqc hname
            rw [validateChannelPairs_none_iff] at this
            exact this
        · intro hspec rc hrc
          obtain ⟨-, -, hall⟩ := hspec
          obtain ⟨hex, hvp⟩ := hall rc hrc
          rw [resChannelLoop_none_iff]
          refine ⟨Or.inr hex, ?_⟩
          intro qc hqc hname
          rw [validateChannelPairs_none_iff]
          exact hvp qc hqc hname
      · constructor
        · intro h
          obtain ⟨rc, hrc, hr⟩ := resChannelsLoop_some _ _ _ _ h
          rcases resChannelLoop_values req.Pairs rc req.Channels false with
            hv | hv | hv | hv <;> rw [hr] at hv <;> simp at hv
        · intro hc
          exact absurd htype hc
      · constructor
        · intro h
          obtain ⟨rc, hrc, hr⟩ := resChannelsLoop_some _ _ _ _ h
          rcases resChannelLoop_values req.Pairs rc req.Channels false with
            hv | hv | hv | hv <;> rw [hr] at hv <;> simp at hv
        · intro hc
          exact absurd hlen hc.2
      · intro h
        obtain ⟨rc, hrc, hr⟩ := resChannelsLoop_some _ _ _ _ h
        obtain ⟨-, hall⟩ := resChannelLoop_mismatch _ _ _ _ hr
        exact ⟨rc, hrc, hall⟩
      · intro h
        have hsome : ∃ e, resChannelsLoop req.Channels req.Pairs res.Channels
            = some e ∧ (e = HsErr.pairLen ∨ e = HsErr.pairMismatch) := by
          rcases h with h | h
          · exact ⟨.pairLen, h, Or.inl rfl⟩
          · exact ⟨.pairMismatch, h, Or.inr rfl⟩
        obtain ⟨e, he, hkind⟩ := hsome
        obtain ⟨rc, hrc, hr⟩ := resChannelsLoop_some _ _ _ _ he
        have hpe : resChannelLoop req.Pairs rc req.Channels false = some .pairLen ∨
            resChannelLoop req.Pairs rc req.Channels false = some .pairMismatch := by
          rcases hkind with rfl | rfl
          · exact Or.inl hr
          · exact Or.inr hr
        obtain ⟨qc, hqc, hname, hvcp⟩ := resChannelLoop_pairErr _ _ _ _ hpe
        refine ⟨rc, hrc, qc, hqc, hname, ?_⟩
        intro hok
        apply hvcp
        rw [validateChannelPairs_none_iff]
        exact hok
    · rw [if_pos (by simpa using hlen)]
      refine ⟨?_, ?_, ?_, ?_, ?_⟩
      · constructor
        · intro hc; cases hc
        · intro hspec; exact absurd hspec.2.1 hlen
      · constructor
        · intro hc; simp at hc
        · intro hc; exact absurd htype hc
      · constructor
        · intro _; exact ⟨htype, hlen⟩
        · intro _; rfl
      · intro hc; simp at hc
      · intro hc; rcases hc with hc | hc <;> simp at hc
  · rw [if_pos (by simpa using htype)]
    refine ⟨?_, ?_, ?_, ?_, ?_⟩
    · constructor
      · intro hc; cases hc
      · intro hspec; exact absurd hspec.1 htype
    · constructor
      · intro _; exact htype
      · intro _; rfl
    · constructor
      · intro hc; simp at hc
      · intro hc; exact absurd hc.1 htype
    · intro hc; simp at hc
    · intro hc; rcases hc with hc | hc <;> simp at hc

/-- C3 witness: the theorem instantiated at the repository test's
request/acknowledgement pair, whose handshake validates. -/
theorem C3_handshake_validation_witness :
    validateSubscribeResponse handshakeReqExample handshakeResExample = none :=
  (C3_handshake_validation handshakeReqExample handshakeResExample).1.mpr
    (by decide)


/-- C4: the number of allocated bundles is always `max 1 (number of
distinct user identities)`; the validated ticker/level2/user/user fixture
plans into exactly 2 bundles, each carrying a fully non-empty auth block
(key, passphrase, timestamp, signature), and the reordering with both
`user` channels first also plans into exactly 2 such bundles. -/
theorem C4_bundle_packing :
    (∀ (now : Nat) (gx : GdaxWebsocket),
      (generateSubscribeRequests now gx).length
        = max 1 gx.userNamesByKey.length) ∧
    ((validateConfig validTestGdax).2 = none ∧
      (generateSubscribeRequests 1500000000 (validateConfig validTestGdax).1).map
        (fun s => decide (s.Key ≠ "") && decide (s.Passphrase ≠ "") &&
          decide (s.Timestamp ≠ "") && decide (s.Signature ≠ ""))
        = [true, true]) ∧
    ((validateConfig usersFirstGdax).2 = none ∧
      (generateSubscribeRequests 1500000000 (validateConfig usersFirstGdax).1).map
        (fun s => decide (s.Key ≠ "") && decide (s.Passphrase ≠ "") &&
          decide (s.Timestamp ≠ "") && decide (s.Signature ≠ ""))
        = [true, true]) :=
  ⟨generateSubscribeRequests_length,
   ⟨by decide, by decide⟩,
   ⟨by decide, by decide⟩⟩

/-- C1: with two planned bundles, when the first bundle's dial, handshake
and spawn succeed and the second bundle's dial fails, `Start` returns the
dial error while the first connection (handle `0`) is still recorded open
and nothing has been closed — the early `return err` on a dial failure
skips the `Stop` call every other failure path makes, so the spec's
all-or-nothing rollback does not happen and a subsequent `Stop` is the
required cleanup rather than a no-op. -/
theorem C1_start_dial_leak :
    (startModel 1500000000 [.dialOk false (some goodAckUser1), .dialFail]
        twoUserStartGdax).2.2 = some .dialErr ∧
    (startModel 1500000000 [.dialOk false (some goodAckUser1), .dialFail]
        twoUserStartGdax).2.1.conns = [0] ∧
    (startModel 1500000000 [.dialOk false (some goodAckUser1), .dialFail]
        twoUserStartGdax).2.1.closedIds = [] := by
  refine ⟨?_, ?_, ?_⟩ <;> decide

/-- C2: with three valid, distinct `user` channels the planner resets the
occupied flag to `false` after advancing, so the third user re-occupies
bundle 1: bundle 1 ends up carrying two `user` subscription entries and the
third user's key, the second user's credentials survive in no bundle, and
allocated bundle 2 stays empty with no credentials — distinct users do not
get distinct bundles. -/
theorem C2_credential_overwrite :
    (validateConfig threeUserGdax).2 = none ∧
    (generateSubscribeRequests 1500000000 (validateConfig threeUserGdax).1).map
        (fun s => s.Key) =
      ["a531631f192bf4778a19fbfbfae237a5", "c323431f192bf4778a19fbfbfbb237b5", ""] ∧
    (generateSubscribeRequests 1500000000 (validateConfig threeUserGdax).1).map
        (fun s => s.Channels.map (fun c => c.Channel)) =
      [["user"], ["user", "user"], []] := by
  refine ⟨?_, ?_, ?_⟩ <;> decide


/-- C5 witness: the theorem applied to the accepted two-user fixture. -/
theorem C5_channel_pair_normalization_witness :
    (validateConfig validTestGdax).1.Channels.map (fun c => c.Pairs)
      = validTestGdax.Channels.map
          (fun c => specChannelPairs (validateConfig validTestGdax).1.Pairs c.Pairs) :=
  C5_channel_pair_normalization.1 validTestGdax (validateConfig validTestGdax).1
    (by decide)

/-- C6 witness: the normalization equation applied to the example input. -/
theorem C6_global_pair_normalization_witness :
    dedupUpper ["eth-usd", "BTC-ETH", "ETH-USD"]
      = specFirstSeenDedup (["eth-usd", "BTC-ETH", "ETH-USD"].map strUpper) :=
  C6_global_pair_normalization.1 ["eth-usd", "BTC-ETH", "ETH-USD"]

/-- C4 witness: the bundle-count equation applied to the validated
two-user fixture. -/
theorem C4_bundle_packing_witness :
    (generateSubscribeRequests 1500000000 (validateConfig validTestGdax).1).length
      = max 1 (validateConfig validTestGdax).1.userNamesByKey.length :=
  C4_bundle_packing.1 1500000000 (validateConfig validTestGdax).1

end Gdax
